import Mathlib

/-!
Verification of the SU2 MCP server against its specification.

Python strings are modelled as `List Char`, Python `bytes` as `List Nat`
(each entry below 256), Python dicts as association lists with in-place
update on existing keys and append on fresh keys (Python dicts preserve
insertion order).  Pure text transformations (config codec, mesh-filename
rewriting, log-tail slicing) are transcribed function by function from the
source; operations that touch the filesystem or spawn processes are
modelled as functions of an explicit state / process-outcome value, with
the statement order of the source preserved.
-/

set_option maxHeartbeats 1000000

namespace SU2MCP

/-- Python strings, modelled as lists of characters. -/
abbrev Str := List Char

/-- Coerce a Lean string literal into the model's string type. -/
def str (s : String) : Str := s.toList

/-- ASCII whitespace stripped by Python `str.strip()` (the unicode spaces
Python would also strip never occur in this development). -/
def isPySpace (c : Char) : Bool :=
  c = ' ' || c = '\t' || c = '\n' || c = '\x0d' || c = '\x0b' || c = '\x0c'

/-- The characters Python `str.splitlines()` treats as line boundaries. -/
def isLineBreak (c : Char) : Bool :=
  c = '\n' || c = '\x0d' || c = '\x0b' || c = '\x0c' ||
  c = '\x1c' || c = '\x1d' || c = '\x1e' || c = '\x85' ||
  c = ' ' || c = ' '

/-- Python `str.splitlines()`: split at line-break characters, treating
`"\r\n"` as a single boundary; a trailing break does not create an empty
final line. -/
def pySplitlines : Str → List Str
  | [] => []
  | '\x0d' :: '\n' :: cs => [] :: pySplitlines cs
  | c :: cs =>
    if isLineBreak c then
      [] :: pySplitlines cs
    else
      match pySplitlines cs with
      | [] => [[c]]
      | l :: ls => (c :: l) :: ls

/-- Python `str.lstrip()`. -/
def pyLStrip (l : Str) : Str := l.dropWhile isPySpace

/-- Python `str.rstrip()`. -/
def pyRStrip (l : Str) : Str := (l.reverse.dropWhile isPySpace).reverse

/-- Python `str.strip()`. -/
def pyStrip (l : Str) : Str := pyRStrip (pyLStrip l)

/-- Python `s.startswith(p)`. -/
def pyStartsWith : Str → Str → Bool
  | _, [] => true
  | [], _ :: _ => false
  | c :: cs, p :: ps => c = p && pyStartsWith cs ps

/-- Python `s.split(sep, maxsplit=1)` for a single-character separator,
returning the parts before and after the first occurrence (or `none` when
the separator is absent, which models `sep not in s`). -/
def splitFirst (sep : Char) : Str → Option (Str × Str)
  | [] => none
  | c :: cs =>
    if c = sep then some ([], cs)
    else
      match splitFirst sep cs with
      | none => none
      | some (a, b) => some (c :: a, b)

/-- Python `s.split(sep)` for a single-character separator. -/
def splitAll (sep : Char) : Str → List Str
  | [] => [[]]
  | c :: cs =>
    if c = sep then [] :: splitAll sep cs
    else
      match splitAll sep cs with
      | [] => [[c]]
      | l :: ls => (c :: l) :: ls

/-- Python `sep.join(parts)`. -/
def pyJoin (sep : Str) (parts : List Str) : Str := List.intercalate sep parts

/-- Lower-case an ASCII character (the fragment of Python `str.lower()`
exercised by the config files in this development). -/
def lowerChar (c : Char) : Char :=
  if 'A' ≤ c ∧ c ≤ 'Z' then Char.ofNat (c.toNat + 32) else c

/-- Python `str.lower()` (ASCII fragment). -/
def pyLower (l : Str) : Str := l.map lowerChar

/-- Python list slice `xs[-n:]` for a non-negative `n`: for `n > 0` the
last `n` elements (all of them when `n` exceeds the length), but for
`n = 0` the slice `xs[-0:]` is `xs[0:]`, i.e. the whole list. -/
def pySliceLast (n : Nat) (xs : List Str) : List Str :=
  if n = 0 then xs else xs.drop (xs.length - n)

/-- The genuine "last `n` elements" operation (empty for `n = 0`), used to
state claims about log tails independently of Python slice quirks. -/
def lastLines (n : Nat) (xs : List Str) : List Str := xs.drop (xs.length - n)

/-- A string free of line-break characters occupies a single line. -/
def breakFree (l : Str) : Bool := l.all (fun c => !(isLineBreak c))

/-- One parsed history row: column name to cell (cells kept as text here;
numeric coercion is irrelevant to the runner claims). -/
abbrev HistRow := List (Str × Str)

/-- The `error` sub-mapping of a runner result. -/
structure RunError where
  etype : Str
  message : Str
  details : Str
  deriving Repr, DecidableEq

/-- The result mapping returned by `SU2Runner.run`.  `runtime_seconds` is
the wall-clock reading taken by the source; wall-clock time is outside the
model, so the elapsed value is threaded through as a parameter. -/
structure RunResult where
  success : Bool
  solver : Str
  config_used : Str
  exit_code : Int
  runtime_seconds : Int
  log_tail : Str
  residual_history : Option (List HistRow)
  error : Option RunError
  deriving Repr, DecidableEq

/-- What happened to the child process spawned by `subprocess.run`: normal
completion with a return code and combined stdout/stderr text, a
`subprocess.TimeoutExpired` (carrying the output captured so far and the
exception's rendering), or a `FileNotFoundError` when the executable could
not be located or started. -/
inductive ProcOutcome where
  | completed (returncode : Int) (stdout : Str)
  | timedOut (partialOutput : Str) (excText : Str)
  | notFound (excText : Str)
  deriving Repr, DecidableEq

namespace SU2Runner

/-- `SU2Runner.run` (su2_runner.py lines 20-83).  The `subprocess.run`
call is abstracted into the `outcome` argument, the two `time.time()`
readings into `runtime`, and `self._parse_history_files()` into
`residuals`; everything else is transcribed from the source. -/
def run (solver config_path : Str) (outcome : ProcOutcome) (capture_log_lines : Nat)
    (runtime : Int) (residuals : Option (List HistRow)) : RunResult :=
  match outcome with
  | .completed returncode stdout =>
    let output_text := stdout
    let tail_lines := pyJoin (str "\n") (pySliceLast capture_log_lines (pySplitlines output_text))
    { success := returncode == 0
      solver := solver
      config_used := config_path
      exit_code := returncode
      runtime_seconds := runtime
      log_tail := tail_lines
      residual_history := residuals
      error := none }
  | .timedOut _ excText =>
    { success := false
      solver := solver
      config_used := config_path
      exit_code := -1
      runtime_seconds := runtime
      log_tail := str "Process timed out"
      residual_history := none
      error := some { etype := str "timeout"
                      message := str "SU2 solver execution timed out"
                      details := excText } }
  | .notFound excText =>
    { success := false
      solver := solver
      config_used := config_path
      exit_code := -1
      runtime_seconds := runtime
      log_tail := str ""
      residual_history := none
      error := some { etype := str "missing_binary"
                      message := (str "Solver binary '") ++ solver ++ (str "' not found")
                      details := excText } }

end SU2Runner

/-! ## Claim C1 (normal-completion log tail and success flag) -/

/-- Claim C1, counterexample: with `capture_log_lines = 0` the claim says
the log tail holds no lines (the last 0 lines), but the source computes
`splitlines()[-0:]`, which is the whole list, so on the two-line output
`"a\nb"` the run result's log tail is the full output, not the empty
string demanded by the claim. -/
theorem run_zero_tail_cx :
    (SU2Runner.run (str "SU2_CFD") (str "config.cfg")
        (.completed 0 (str "a\nb")) 0 7 none).log_tail
      ≠ pyJoin (str "\n") (lastLines 0 (pySplitlines (str "a\nb"))) := by
  decide

/-- Claim C1 as amended: on normal completion the success flag equals
`exit_code == 0`, and for `capture_log_lines ≥ 1` the log tail is the last
`capture_log_lines` lines of the combined output joined by newlines (fewer
if the output has fewer lines, all of it when the count exceeds the
total); for `capture_log_lines = 0` the Python slice `[-0:]` keeps every
line, so the log tail is the entire output. -/
theorem run_normal_result (solver cfg out : Str) (rc : Int) (n : Nat) (rt : Int)
    (res : Option (List HistRow)) :
    (SU2Runner.run solver cfg (.completed rc out) n rt res).success
      = ((SU2Runner.run solver cfg (.completed rc out) n rt res).exit_code == 0)
    ∧ (1 ≤ n →
        (SU2Runner.run solver cfg (.completed rc out) n rt res).log_tail
          = pyJoin (str "\n") (lastLines n (pySplitlines out)))
    ∧ (n = 0 →
        (SU2Runner.run solver cfg (.completed rc out) n rt res).log_tail
          = pyJoin (str "\n") (pySplitlines out)) := by
  refine ⟨rfl, fun hn => ?_, fun hn => ?_⟩
  · simp only [SU2Runner.run, pySliceLast, lastLines]
    rw [if_neg (by omega)]
  · subst hn
    simp [SU2Runner.run, pySliceLast]

/-- Claim C1 witness: the amended theorem applied at a concrete run with
three output lines, a tail bound of 2 and a tail bound of 0. -/
theorem run_normal_result_witness :
    ((SU2Runner.run (str "s") (str "c") (.completed 2 (str "x\ny\nz")) 2 5 none).log_tail
        = pyJoin (str "\n") (lastLines 2 (pySplitlines (str "x\ny\nz"))))
    ∧ ((SU2Runner.run (str "s") (str "c") (.completed 2 (str "x\ny\nz")) 0 5 none).log_tail
        = pyJoin (str "\n") (pySplitlines (str "x\ny\nz"))) :=
  ⟨(run_normal_result (str "s") (str "c") (str "x\ny\nz") 2 2 5 none).2.1 (by decide),
   (run_normal_result (str "s") (str "c") (str "x\ny\nz") 2 0 5 none).2.2 rfl⟩

/-! ## Config text codec (`su2_mcp_server/config_utils.py`)

Scalars are the values `_infer_scalar` can produce: booleans, integers,
floats and strings.  A Python float is represented by its decimal text
(its `repr`); IEEE-754 evaluation is outside the model, and the
round-trip claim is stated for canonical float texts, where Python's
`str(float(t)) = t` holds on the nose. -/

inductive Scalar where
  | sb : Bool → Scalar
  | sint : Int → Scalar
  | sfloat : Str → Scalar
  | sstr : Str → Scalar
  deriving Repr, DecidableEq

/-- A config value: a single scalar, or the list produced by the
comma-splitting branch of the parser. -/
inductive CVal where
  | scalar : Scalar → CVal
  | vlist : List Scalar → CVal
  deriving Repr, DecidableEq

instance : Inhabited Scalar := ⟨Scalar.sb false⟩

instance : Inhabited CVal := ⟨CVal.scalar (Scalar.sb false)⟩

/-- Decimal digits of `n`, least significant first (empty for 0). -/
def digitsLE : Nat → List Nat
  | 0 => []
  | n + 1 => (n + 1) % 10 :: digitsLE ((n + 1) / 10)
decreasing_by exact Nat.div_lt_self (Nat.succ_pos n) (by omega)

/-- Rebuild a number from its little-endian digit list. -/
def ofDigitsLE : List Nat → Nat
  | [] => 0
  | d :: ds => d + 10 * ofDigitsLE ds

/-- The character for a decimal digit. -/
def digitChar (d : Nat) : Char := Char.ofNat (48 + d)

/-- Python `str(n)` for a natural number. -/
def natStr (n : Nat) : Str :=
  if n = 0 then ['0'] else ((digitsLE n).reverse).map digitChar

/-- Python `str(i)` for an integer. -/
def intStr (i : Int) : Str :=
  if i < 0 then '-' :: natStr i.natAbs else natStr i.toNat

/-- Decimal digit test (ASCII; the Unicode decimal digits Python's
constructors additionally map through their numeric value are outside the
model, and the round-trip theorem restricts its string scalars to ASCII
so that this fragment is exact there). -/
def isDigit (c : Char) : Bool := '0' ≤ c && c ≤ '9'

/-- CPython's underscore validation for the `int()`/`float()`
constructors (`_Py_string_to_number_with_underscores`): every underscore
must be immediately preceded and followed by a digit; `prev` carries the
preceding character. -/
def undOkAux : Option Char → Str → Bool
  | _, [] => true
  | prev, c :: rest =>
    if c = '_' then
      (match prev with
       | some p => isDigit p
       | none => false) &&
      (match rest with
       | r :: _ => isDigit r
       | [] => false) &&
      undOkAux (some c) rest
    else undOkAux (some c) rest

/-- Whether every underscore in the string is legally grouped. -/
def undOk (l : Str) : Bool := undOkAux none l

/-- After validation CPython strips the underscores and parses the rest. -/
def removeUnd (l : Str) : Str := l.filter (fun c => c ≠ '_')

/-- Read an unsigned decimal digit run after underscore removal (`none`
when empty or when a non-digit occurs, modelling the `ValueError` of
Python `int`). -/
def parseDigits (l : Str) : Option Nat :=
  if l = [] then none
  else if l.all isDigit then
    some (ofDigitsLE ((l.reverse).map (fun c => c.toNat - 48)))
  else none

/-- Python `int(value)` on an already-stripped string: validate the
underscore grouping, remove the underscores, then optional sign and
decimal digits. -/
def pyInt (l : Str) : Option Int :=
  if undOk l then
    match removeUnd l with
    | '-' :: rest => (parseDigits rest).map (fun n => -(n : Int))
    | '+' :: rest => (parseDigits rest).map (fun n => (n : Int))
    | l2 => (parseDigits l2).map (fun n => (n : Int))
  else none

/-- Strip one leading sign character. -/
def dropSign : Str → Str
  | '+' :: r => r
  | '-' :: r => r
  | l => l

/-- Count the leading decimal digits and return the remainder. -/
def spanDigits : Str → Nat × Str
  | [] => (0, [])
  | c :: cs =>
    if isDigit c then
      let nr := spanDigits cs
      (nr.1 + 1, nr.2)
    else (0, c :: cs)

/-- Accept an optional exponent part (`e`/`E`, optional sign, digits). -/
def expOk : Str → Bool
  | [] => true
  | c :: r =>
    if c = 'e' || c = 'E' then
      let r2 := spanDigits (dropSign r)
      decide (r2.1 > 0) && decide (r2.2 = [])
    else false

/-- Core of the float grammar after underscore removal: an optional
sign, digits around an optional point (at least one digit), and an
optional exponent. -/
def pyFloatCore (l : Str) : Bool :=
  let m := dropSign l
  let dr := spanDigits m
  match dr.2 with
  | '.' :: r2 =>
    let dr2 := spanDigits r2
    if dr.1 + dr2.1 = 0 then false else expOk dr2.2
  | _ => if dr.1 = 0 then false else expOk dr.2

/-- Whether Python `float(value)` accepts `value`: underscores validated
and removed as for `int()`, then the decimal grammar.  The `inf`/`nan`
words Python would also accept contain no `'.'` and are never reached
behind the parser's dot guard. -/
def pyFloatOk (l : Str) : Bool :=
  undOk l && pyFloatCore (removeUnd l)

/-- `_infer_scalar` (config_utils.py lines 9-18): case-insensitive
`true`/`false` become booleans; otherwise a value containing `'.'` is
tried as a float and a value without one as an integer, falling back to
the raw string on `ValueError`. -/
def _infer_scalar (value : Str) : Scalar :=
  let lower := pyLower value
  if lower = str "true" ∨ lower = str "false" then .sb (lower == str "true")
  else if value.contains '.' then
    if pyFloatOk value then .sfloat value else .sstr value
  else
    match pyInt value with
    | some i => .sint i
    | none => .sstr value

/-- `_format_value` on a scalar: booleans as `TRUE`/`FALSE`, everything
else via `str(...)` (a float prints as its canonical text). -/
def formatScalar : Scalar → Str
  | .sb true => str "TRUE"
  | .sb false => str "FALSE"
  | .sint i => intStr i
  | .sfloat t => t
  | .sstr s => s

/-- `_format_value` (config_utils.py lines 46-51): lists are comma-joined
formatted scalars, scalars format as above. -/
def _format_value : CVal → Str
  | .scalar s => formatScalar s
  | .vlist l => pyJoin (str ", ") (l.map formatScalar)

/-- Python dict assignment `entries[key] = value` on an insertion-ordered
association list: overwrite in place when the key exists, append
otherwise. -/
def dictInsert (es : List (Str × CVal)) (k : Str) (v : CVal) : List (Str × CVal) :=
  if es.any (fun p => p.1 == k) then
    es.map (fun p => if p.1 == k then (k, v) else p)
  else es ++ [(k, v)]

/-- One iteration of the parsing loop in `parse_config_text`
(config_utils.py lines 24-37). -/
def parseLine (entries : List (Str × CVal)) (raw_line : Str) : List (Str × CVal) :=
  let line := pyStrip raw_line
  if line = [] then entries
  else if pyStartsWith line (str "%") || pyStartsWith line (str "#") then entries
  else
    match splitFirst '=' line with
    | none => entries
    | some kv =>
      let key := pyStrip kv.1
      let value := pyStrip kv.2
      if key = [] then entries
      else if value.contains ',' then
        let parts := ((splitAll ',' value).map pyStrip).filter (fun s => s ≠ [])
        dictInsert entries key (.vlist (parts.map _infer_scalar))
      else dictInsert entries key (.scalar (_infer_scalar value))

/-- `parse_config_text` (config_utils.py lines 21-38). -/
def parse_config_text (config_text : Str) : List (Str × CVal) :=
  (pySplitlines config_text).foldl parseLine []

/-- `_serialize_entries` (config_utils.py lines 73-74): one
`KEY= value` line per entry. -/
def _serialize_entries (entries : List (Str × CVal)) : List Str :=
  entries.map (fun kv => kv.1 ++ str "= " ++ _format_value kv.2)

/-- Serialization to file text as performed by `update_config_entries`
(config_utils.py line 69): lines joined by newlines plus a trailing
newline. -/
def serialize_config (entries : List (Str × CVal)) : Str :=
  pyJoin (str "\n") (_serialize_entries entries) ++ str "\n"

/-- `update_config_entries` (config_utils.py lines 54-70) as a function
from the old file text to the new file text and the returned
`updated_keys` list: parse, then for each update either overwrite an
existing entry or (only with `create_if_missing`) insert a new one,
recording the written keys; finally rewrite the whole file. -/
def update_config_entries (config_text : Str) (updates : List (Str × CVal))
    (create_if_missing : Bool) : Str × List Str :=
  let entries := parse_config_text config_text
  let fin := updates.foldl
    (fun acc kv =>
      if acc.1.any (fun p => p.1 == kv.1) || create_if_missing then
        (dictInsert acc.1 kv.1 kv.2, acc.2 ++ [kv.1])
      else acc)
    (entries, [])
  (serialize_config fin.1, fin.2)

/-- Conditions for a key to survive serialization and reparsing: nonempty,
strip-invariant, free of `=` and line breaks, and not starting with a
comment character. -/
def GoodKey (k : Str) : Bool :=
  !(k == ([] : Str)) && (pyStrip k == k) && !(k.contains '=') && breakFree k &&
  !(pyStartsWith k (str "%")) && !(pyStartsWith k (str "#"))

/-! ## Session manager: mesh filename rewriting
(`SessionManager._ensure_mesh_filename_in_config`, session_manager.py
lines 80-93, invoked by `create_session` when an initial mesh is given and
by `update_mesh` on every mesh upload) -/

namespace SessionManager

/-- The replacement line `f"MESH_FILENAME= {mesh_file_name}"` written by
`_ensure_mesh_filename_in_config`. -/
def meshDeclLine (mesh_file_name : Str) : Str :=
  str "MESH_FILENAME= " ++ mesh_file_name

/-- The loop body of `_ensure_mesh_filename_in_config`: walk the existing
lines, replacing each line whose stripped text starts with
`"MESH_FILENAME"` by the declaration line, and report whether any
replacement happened (the `mesh_key_written` flag). -/
def ensureLines (mesh_file_name : Str) : List Str → List Str × Bool
  | [] => ([], false)
  | line :: rest =>
    let tw := ensureLines mesh_file_name rest
    if pyStartsWith (pyStrip line) (str "MESH_FILENAME") then
      (meshDeclLine mesh_file_name :: tw.1, true)
    else
      (line :: tw.1, tw.2)

/-- `SessionManager._ensure_mesh_filename_in_config` as a pure function
from the old config text to the new one: split into lines, replace or
keep each line, append a declaration when none was replaced, and rejoin
with a trailing newline. -/
def ensure_mesh_filename_in_config (config_text mesh_file_name : Str) : Str :=
  let existing := pySplitlines config_text
  let tw := ensureLines mesh_file_name existing
  let updated := if tw.2 then tw.1 else tw.1 ++ [meshDeclLine mesh_file_name]
  pyJoin (str "\n") updated ++ str "\n"

/-- The rewrite that claim C2's wording describes: only lines that
actually declare the key `MESH_FILENAME` (their text up to the first `=`
strips to exactly `"MESH_FILENAME"`) are replaced; every other line is
preserved; a declaration is appended when none was present. -/
def isMeshDeclLine (line : Str) : Bool :=
  match splitFirst '=' (pyStrip line) with
  | some kv => pyStrip kv.1 == str "MESH_FILENAME"
  | none => false

/-- Config rewrite as described by claim C2's wording (exact-key
replacement), for comparison with the source's prefix-based rewrite. -/
def ensure_mesh_filename_claimed (config_text mesh_file_name : Str) : Str :=
  let existing := pySplitlines config_text
  let updated :=
    if existing.any isMeshDeclLine then
      existing.map (fun l => if isMeshDeclLine l then meshDeclLine mesh_file_name else l)
    else
      existing ++ [meshDeclLine mesh_file_name]
  pyJoin (str "\n") updated ++ str "\n"

end SessionManager

/-! ## Paths (`pathlib` fragment used by `tools/results_tools.py`)

Paths are modelled lexically as a flag for absoluteness plus a component
list; `resolve()` is the symlink-free normalization (`.` dropped, `..`
popping one component, a no-op at the root), which matches
`Path.resolve` on a filesystem without symlinks. -/

structure PurePath where
  absolute : Bool
  comps : List Str
  deriving Repr, DecidableEq

/-- Python `Path.__truediv__`: joining with an absolute right operand
discards the left operand. -/
def pathJoin (base rel : PurePath) : PurePath :=
  if rel.absolute then rel else ⟨base.absolute, base.comps ++ rel.comps⟩

/-- Lexical `Path.resolve()`. -/
def resolve (p : PurePath) : PurePath :=
  ⟨p.absolute,
    p.comps.foldl (fun acc c =>
      if c = str "." then acc
      else if c = str ".." then acc.dropLast
      else acc ++ [c]) []⟩

/-- `Path.parents`: every strict ancestor of the path. -/
def parents (p : PurePath) : List PurePath :=
  (List.range p.comps.length).map (fun i => ⟨p.absolute, p.comps.take i⟩)

/-- The claim's notion of lying inside the working directory: same
absoluteness and the directory's components are an initial segment. -/
def within (wd full : PurePath) : Prop :=
  wd.absolute = full.absolute ∧ wd.comps <+: full.comps

instance : DecidablePred (fun q : PurePath × PurePath => within q.1 q.2) :=
  fun _ => by unfold within; infer_instance

instance (wd full : PurePath) : Decidable (within wd full) := by
  unfold within; infer_instance

/-! ## Base64 (`base64.b64encode` / `base64.b64decode`)

Bytes are natural numbers below 256; base64 text is modelled at the
character level with the standard alphabet.  Decoding mirrors
`b64decode(..., validate=False)`: characters outside the alphabet and
`=` are discarded, then quads are decoded, a quad ending in `=` or `==`
contributing two or one bytes; a leftover partial quad or misplaced
padding is a decoding failure (`binascii.Error`). -/

def isB64Char (c : Char) : Bool :=
  ('A' ≤ c && c ≤ 'Z') || ('a' ≤ c && c ≤ 'z') || ('0' ≤ c && c ≤ '9') ||
  c = '+' || c = '/'

/-- The standard base64 alphabet. -/
def b64Char (i : Nat) : Char :=
  if i < 26 then Char.ofNat (65 + i)
  else if i < 52 then Char.ofNat (97 + (i - 26))
  else if i < 62 then Char.ofNat (48 + (i - 52))
  else if i = 62 then '+'
  else '/'

/-- Inverse of the alphabet on its image. -/
def b64Val (c : Char) : Nat :=
  if 'A' ≤ c && c ≤ 'Z' then c.toNat - 65
  else if 'a' ≤ c && c ≤ 'z' then c.toNat - 97 + 26
  else if '0' ≤ c && c ≤ '9' then c.toNat - 48 + 52
  else if c = '+' then 62
  else 63

/-- `base64.b64encode`: three bytes into four characters, the final one-
or two-byte group padded with `=`. -/
def b64encode : List Nat → Str
  | [] => []
  | [b0] => [b64Char (b0 / 4), b64Char (b0 % 4 * 16), '=', '=']
  | [b0, b1] =>
    [b64Char (b0 / 4), b64Char (b0 % 4 * 16 + b1 / 16), b64Char (b1 % 16 * 4), '=']
  | b0 :: b1 :: b2 :: rest =>
    b64Char (b0 / 4) :: b64Char (b0 % 4 * 16 + b1 / 16) ::
    b64Char (b1 % 16 * 4 + b2 / 64) :: b64Char (b2 % 64) :: b64encode rest

/-- Decode a stream of base64 quads. -/
def decodeQuads : Str → Option (List Nat)
  | [] => some []
  | a :: b :: c :: d :: rest =>
    if a = '=' || b = '=' then none
    else if c = '=' then
      if d = '=' then
        (decodeQuads rest).map (fun bs => (b64Val a * 4 + b64Val b / 16) :: bs)
      else none
    else if d = '=' then
      (decodeQuads rest).map (fun bs =>
        (b64Val a * 4 + b64Val b / 16) :: (b64Val b % 16 * 16 + b64Val c / 4) :: bs)
    else
      (decodeQuads rest).map (fun bs =>
        (b64Val a * 4 + b64Val b / 16) :: (b64Val b % 16 * 16 + b64Val c / 4)
          :: (b64Val c % 4 * 64 + b64Val d) :: bs)
  | _ => none

/-- `base64.b64decode(s, validate=False)`: `none` models `binascii.Error`. -/
def pyB64Decode (s : Str) : Option (List Nat) :=
  decodeQuads (s.filter (fun c => isB64Char c || c = '='))

/-! ## Result-file tool (`get_result_file_base64`, results_tools.py 37-60) -/

/-- The success payload of `get_result_file_base64`: full file size,
truncation flag, the sliced bytes that were encoded, and their base64
encoding. -/
structure FilePayload where
  size_bytes : Nat
  truncated : Bool
  data : List Nat
  data_base64 : Str
  deriving Repr, DecidableEq

/-- A tool outcome: the error envelope's `type` field, or the payload. -/
inductive FileResult where
  | error (etype : Str)
  | ok (payload : FilePayload)
  deriving Repr, DecidableEq

/-- Look a file up by absolute path. -/
def findFile (files : List (PurePath × List Nat)) (p : PurePath) : Option (List Nat) :=
  (files.find? (fun f => f.1 == p)).map Prod.snd

/-- `get_result_file_base64` for one registered session, with the
session's working directory and the filesystem contents explicit.
Transcribed branch by branch: resolve the joined path, reject paths whose
resolution is neither a descendant of nor equal to the working directory
(`validation_error`), report `not_found` for missing files, otherwise
return size, truncation flag and the base64 of the first `max_bytes`
bytes. -/
def get_result_file_base64 (workdir : PurePath) (files : List (PurePath × List Nat))
    (relative_path : PurePath) (max_bytes : Nat) : FileResult :=
  let full_path := resolve (pathJoin workdir relative_path)
  if ¬ workdir ∈ parents full_path ∧ workdir ≠ full_path then
    .error (str "validation_error")
  else
    match findFile files full_path with
    | none => .error (str "not_found")
    | some bytes =>
      .ok { size_bytes := bytes.length
            truncated := bytes.length > max_bytes
            data := bytes.take max_bytes
            data_base64 := b64encode (bytes.take max_bytes) }

/-! ## History CSV tool (`read_history_csv`, results_tools.py 63-93) -/

/-- `_coerce_value` (results_tools.py 96-102): try `float`, fall back to
the raw text (the claim-relevant behaviour is the row bookkeeping, the
coercion is carried for fidelity; `inf`/`nan` words are omitted from the
float recognizer). -/
def _coerce_value (s : Str) : Scalar :=
  if pyFloatOk s then .sfloat s else .sstr s

/-- The payload of `read_history_csv`. -/
structure HistoryPayload where
  columns : List Str
  rows : List (List (Str × Scalar))
  total_rows : Nat
  deriving Repr, DecidableEq

/-- Association-list lookup modelling `row.get(key)` / `key in row` on a
`csv.DictReader` row. -/
def rowGet (row : List (Str × Str)) (key : Str) : Option Str :=
  (row.find? (fun kv => kv.1 == key)).map Prod.snd

/-- `read_history_csv` on an already-opened file, abstracted over
`csv.DictReader`: `headers` are the field names and `dataRows` the data
rows as key/value lists.  Skips `skip_rows` rows, keeps at most
`max_rows`, projects each kept row onto the requested columns (all
headers when `columns` is `None` or empty, mirroring `columns or
headers`), and reports `total_rows = skip_rows + len(rows)`. -/
def read_history_csv (headers : List Str) (dataRows : List (List (Str × Str)))
    (columns : Option (List Str)) (max_rows skip_rows : Nat) : HistoryPayload :=
  let filtered_headers :=
    match columns with
    | none => headers
    | some cs => if cs = [] then headers else cs
  let rows := ((dataRows.drop skip_rows).take max_rows).map
    (fun row => filtered_headers.filterMap
      (fun key => (rowGet row key).map (fun v => (key, _coerce_value v))))
  { columns := filtered_headers, rows := rows, total_rows := skip_rows + rows.length }

/-! ## Session state for `SessionManager.update_mesh`
(session_manager.py 117-130) -/

/-- The mutable state `update_mesh` can touch: the session's config file
text, the mesh file's bytes on disk (`none` when absent), and the
record's `mesh_path` field. -/
structure SMState where
  configText : Str
  meshFile : Option (List Nat)
  recordMeshPath : Option Str
  deriving Repr, DecidableEq

/-- Outcome of `update_mesh`: the returned mesh path, or the
`binascii.Error` raised by `base64.b64decode`. -/
inductive UpdateMeshResult where
  | ok (meshPath : Str)
  | decodeError
  deriving Repr, DecidableEq

/-- `SessionManager.update_mesh` for a registered session, statement by
statement: decode first (an error propagates before anything is
written), then write the mesh bytes, then update the record's
`mesh_path`, then rewrite the config's `MESH_FILENAME` entry. -/
def update_mesh (st : SMState) (mesh_base64 mesh_file_name : Str) :
    SMState × UpdateMeshResult :=
  match pyB64Decode mesh_base64 with
  | none => (st, .decodeError)
  | some mesh_bytes =>
    let st1 := { st with meshFile := some mesh_bytes }
    let st2 := { st1 with recordMeshPath := some mesh_file_name }
    let st3 := { st2 with configText :=
      SessionManager.ensure_mesh_filename_in_config st2.configText mesh_file_name }
    (st3, .ok mesh_file_name)

/-! ## String-model lemmas -/

theorem char_eq_iff_toNat (c d : Char) : c = d ↔ c.toNat = d.toNat := by
  constructor
  · intro h; rw [h]
  · intro h
    exact Char.eq_of_val_eq (by ext; simpa [Char.toNat] using h)

theorem isDigit_toNat {c : Char} (h : isDigit c = true) :
    48 ≤ c.toNat ∧ c.toNat ≤ 57 := by
  simp only [isDigit, Bool.and_eq_true, decide_eq_true_eq, Char.le_def] at h
  exact ⟨h.1, h.2⟩

theorem not_isLineBreak_of_toNat {c : Char} (h1 : 32 ≤ c.toNat) (h2 : c.toNat ≤ 126) :
    isLineBreak c = false := by
  simp only [isLineBreak, Bool.or_eq_false_iff, decide_eq_false_iff_not]
  refine ⟨⟨⟨⟨⟨⟨⟨⟨⟨?_, ?_⟩, ?_⟩, ?_⟩, ?_⟩, ?_⟩, ?_⟩, ?_⟩, ?_⟩, ?_⟩ <;>
    · intro hc; subst hc; revert h1 h2; decide

theorem breakFree_append {a b : Str} :
    breakFree (a ++ b) = (breakFree a && breakFree b) := by
  simp [breakFree]

theorem dropWhile_length_le (p : Char → Bool) (l : Str) :
    (l.dropWhile p).length ≤ l.length := by
  induction l with
  | nil => simp
  | cons c cs ih =>
    by_cases h : p c = true <;> simp [List.dropWhile_cons, h] <;> omega

theorem dropWhile_head_false {p : Char → Bool} {l : Str}
    (h : l.dropWhile p = l) : ∀ c cs, l = c :: cs → p c = false := by
  intro c cs hl
  subst hl
  by_cases hp : p c = true
  · rw [List.dropWhile_cons, if_pos hp] at h
    have := dropWhile_length_le p cs
    have hlen := congrArg List.length h
    simp at hlen
    omega
  · simpa using hp

theorem pyLStrip_of_pyStrip {l : Str} (h : pyStrip l = l) : pyLStrip l = l := by
  have h1 : (pyLStrip l).length ≤ l.length := dropWhile_length_le _ l
  have h2 : (pyRStrip (pyLStrip l)).length ≤ (pyLStrip l).length := by
    unfold pyRStrip
    have := dropWhile_length_le isPySpace (pyLStrip l).reverse
    simpa using this
  unfold pyStrip at h
  have h3 : (pyRStrip (pyLStrip l)).length = l.length := by rw [h]
  have h4 : (pyLStrip l).length = l.length := by omega
  unfold pyLStrip at h4 ⊢
  exact (List.dropWhile_sublist _).eq_of_length h4

theorem pyLStrip_cons_nonspace {c : Char} {cs : Str} (h : isPySpace c = false) :
    pyLStrip (c :: cs) = c :: cs := by
  simp [pyLStrip, List.dropWhile_cons, h]

theorem pyLStrip_append {k r : Str} (hk : pyLStrip k = k) (hne : k ≠ []) :
    pyLStrip (k ++ r) = k ++ r := by
  cases k with
  | nil => exact absurd rfl hne
  | cons c cs =>
    have hc : isPySpace c = false := dropWhile_head_false hk c cs rfl
    simp [pyLStrip, List.dropWhile_cons, hc]

theorem pyStrip_nil : pyStrip [] = [] := rfl

theorem pySplitlines_line {l : Str} (rest : Str) (h : breakFree l = true) :
    pySplitlines (l ++ '\n' :: rest) = l :: pySplitlines rest := by
  induction l with
  | nil => rfl
  | cons c cs ih =>
    simp only [breakFree, List.all_cons, Bool.and_eq_true, Bool.not_eq_true'] at h
    have hcs : breakFree cs = true := by simp [breakFree, h.2]
    have hne : c ≠ '\x0d' := by
      intro hc; subst hc; simp [isLineBreak] at h
    rw [List.cons_append]
    rw [pySplitlines.eq_def]
    split
    · simp_all
    · rename_i heq; exfalso
      cases cs with
      | nil => simp at heq; exact hne heq.1
      | cons d ds => simp at heq; exact hne heq.1
    · rename_i x xs heq
      injection heq with h1 h2
      subst h1; subst h2
      rw [if_neg (by simp [h.1])]
      rw [ih hcs]

theorem pySplitlines_join {ls : List Str} (hne : ls ≠ [])
    (h : ∀ l ∈ ls, breakFree l = true) :
    pySplitlines (pyJoin (str "\n") ls ++ str "\n") = ls := by
  induction ls with
  | nil => exact absurd rfl hne
  | cons l rest ih =>
    cases rest with
    | nil =>
      show pySplitlines (pyJoin (str "\n") [l] ++ '\n' :: []) = [l]
      have : pyJoin (str "\n") [l] = l := by simp [pyJoin, List.intercalate]
      rw [this, pySplitlines_line [] (h l (by simp))]
      rfl
    | cons l2 rest2 =>
      have hjoin : pyJoin (str "\n") (l :: l2 :: rest2)
          = l ++ '\n' :: pyJoin (str "\n") (l2 :: rest2) := by
        simp [pyJoin, List.intercalate, str]
      rw [hjoin]
      have : l ++ '\n' :: pyJoin (str "\n") (l2 :: rest2) ++ str "\n"
          = l ++ '\n' :: (pyJoin (str "\n") (l2 :: rest2) ++ str "\n") := by
        simp
      rw [this, pySplitlines_line _ (h l (by simp))]
      rw [ih (by simp) (fun x hx => h x (by simp [hx]))]

theorem splitFirst_not_mem {sep : Char} {l : Str} (h : ¬ sep ∈ l) :
    splitFirst sep l = none := by
  induction l with
  | nil => rfl
  | cons c cs ih =>
    simp only [List.mem_cons, not_or] at h
    rw [splitFirst, if_neg (by intro hc; exact h.1 hc.symm), ih h.2]

theorem splitFirst_append {sep : Char} {k rest : Str} (h : ¬ sep ∈ k) :
    splitFirst sep (k ++ sep :: rest) = some (k, rest) := by
  induction k with
  | nil => simp [splitFirst]
  | cons c cs ih =>
    simp only [List.mem_cons, not_or] at h
    rw [List.cons_append, splitFirst, if_neg (by intro hc; exact h.1 hc.symm),
      ih h.2]

theorem digitsLE_lt_ten (n : Nat) : ∀ d ∈ digitsLE n, d < 10 := by
  induction n using Nat.strong_induction_on with
  | _ n ih =>
    match n with
    | 0 => intro d hd; simp [digitsLE] at hd
    | m + 1 =>
      rw [digitsLE]
      intro d hd
      rcases List.mem_cons.mp hd with h | h
      · subst h; omega
      · exact ih ((m + 1) / 10) (Nat.div_lt_self (Nat.succ_pos m) (by omega)) d h

theorem isDigit_digitChar {d : Nat} (h : d < 10) : isDigit (digitChar d) = true := by
  unfold digitChar
  interval_cases d <;> decide

theorem natStr_all_digit (n : Nat) : ∀ c ∈ natStr n, isDigit c = true := by
  unfold natStr
  split
  · intro c hc; rcases List.mem_singleton.mp hc with rfl; decide
  · intro c hc
    rcases List.mem_map.mp hc with ⟨d, hd, rfl⟩
    exact isDigit_digitChar (digitsLE_lt_ten n d (List.mem_reverse.mp hd))

theorem natStr_chars (n : Nat) : ∀ c ∈ natStr n, 48 ≤ c.toNat ∧ c.toNat ≤ 57 :=
  fun c hc => isDigit_toNat (natStr_all_digit n c hc)

theorem intStr_chars (i : Int) :
    ∀ c ∈ intStr i, c.toNat = 45 ∨ (48 ≤ c.toNat ∧ c.toNat ≤ 57) := by
  unfold intStr
  split
  · intro c hc
    rcases List.mem_cons.mp hc with rfl | h
    · left; rfl
    · right; exact natStr_chars _ c h
  · intro c hc
    right; exact natStr_chars _ c hc

theorem breakFree_intStr (i : Int) : breakFree (intStr i) = true := by
  apply List.all_eq_true.mpr
  intro c hc
  have hfalse : isLineBreak c = false := by
    rcases intStr_chars i c hc with h | ⟨h1, h2⟩
    · exact not_isLineBreak_of_toNat (by omega) (by omega)
    · exact not_isLineBreak_of_toNat (by omega) (by omega)
  simp [hfalse]

theorem pyJoin_single (sep x : Str) : pyJoin sep [x] = x := by
  simp [pyJoin, List.intercalate]

theorem pyJoin_cons_cons (sep x y : Str) (r : List Str) :
    pyJoin sep (x :: y :: r) = x ++ sep ++ pyJoin sep (y :: r) := by
  simp [pyJoin, List.intercalate]

theorem splitAll_ne_nil (sep : Char) (l : Str) : splitAll sep l ≠ [] := by
  induction l with
  | nil => simp [splitAll]
  | cons c cs ih =>
    rw [splitAll]
    split
    · simp
    · split <;> simp

theorem breakFree_pyJoin {parts : List Str} (h : ∀ p ∈ parts, breakFree p = true) :
    breakFree (pyJoin (str ", ") parts) = true := by
  induction parts with
  | nil => decide
  | cons x xs ih =>
    cases xs with
    | nil => rw [pyJoin_single]; exact h x (by simp)
    | cons y r =>
      rw [pyJoin_cons_cons, breakFree_append, breakFree_append]
      rw [h x (by simp), ih (fun p hp => h p (by simp [hp]))]
      decide

theorem goodKey_parts {k : Str} (h : GoodKey k = true) :
    k ≠ [] ∧ pyStrip k = k ∧ ¬ '=' ∈ k ∧ breakFree k = true ∧
    pyStartsWith k (str "%") = false ∧ pyStartsWith k (str "#") = false := by
  simp only [GoodKey, Bool.and_eq_true, Bool.not_eq_true', beq_iff_eq] at h
  refine ⟨?_, h.1.1.1.1.2, ?_, h.1.1.2, h.1.2, h.2⟩
  · intro he
    have := h.1.1.1.1.1
    rw [he] at this
    revert this; decide
  · intro hm
    have := h.1.1.1.2
    simp at this
    exact this hm

theorem pyStartsWith_nil (s : Str) : pyStartsWith s [] = true := by
  cases s <;> rfl

theorem pyStartsWith_single (c : Char) (r : Str) (p : Char) :
    pyStartsWith (c :: r) [p] = decide (c = p) := by
  show pyStartsWith (c :: r) (p :: []) = decide (c = p)
  rw [pyStartsWith, pyStartsWith_nil, Bool.and_true]

theorem pyRStrip_eq_rdrop (l : Str) : pyRStrip l = List.rdropWhile isPySpace l := rfl

theorem pyRStrip_cons_shape (c : Char) (t : Str) :
    pyRStrip (c :: t) = [] ∨ ∃ r, pyRStrip (c :: t) = c :: r := by
  unfold pyRStrip
  rw [show (c :: t).reverse = t.reverse ++ [c] from by simp]
  rw [List.dropWhile_append]
  by_cases h : (t.reverse.dropWhile isPySpace).isEmpty = true
  · rw [if_pos h]
    by_cases hc : isPySpace c = true
    · left
      simp [List.dropWhile_cons, hc]
    · right
      exact ⟨[], by simp [List.dropWhile_cons, hc]⟩
  · rw [if_neg h]
    right
    exact ⟨(t.reverse.dropWhile isPySpace).reverse, by simp⟩

theorem pyLStrip_pyStrip (l : Str) : pyLStrip (pyStrip l) = pyStrip l := by
  show pyLStrip (pyRStrip (pyLStrip l)) = pyRStrip (pyLStrip l)
  rcases ha : pyLStrip l with _ | ⟨c, t⟩
  · rfl
  · have hidem : List.dropWhile isPySpace (pyLStrip l) = pyLStrip l := by
      unfold pyLStrip
      exact List.dropWhile_idempotent isPySpace l
    have hc : isPySpace c = false := dropWhile_head_false hidem c t ha
    rcases pyRStrip_cons_shape c t with h0 | ⟨r, hr⟩
    · rw [h0]; rfl
    · rw [hr]
      exact pyLStrip_cons_nonspace hc

theorem pyStrip_idem (l : Str) : pyStrip (pyStrip l) = pyStrip l := by
  show pyRStrip (pyLStrip (pyStrip l)) = pyStrip l
  rw [pyLStrip_pyStrip]
  show pyRStrip (pyRStrip (pyLStrip l)) = pyRStrip (pyLStrip l)
  rw [pyRStrip_eq_rdrop, pyRStrip_eq_rdrop, List.rdropWhile_idempotent]

theorem mem_of_mem_pyStrip {c : Char} {l : Str} (h : c ∈ pyStrip l) : c ∈ l := by
  unfold pyStrip pyRStrip pyLStrip at h
  have h2 : c ∈ (List.dropWhile isPySpace l).reverse :=
    (List.dropWhile_sublist _).subset (by simpa using h)
  have h3 : c ∈ List.dropWhile isPySpace l := by simpa using h2
  exact (List.dropWhile_sublist _).subset h3

theorem splitFirst_eq_some {sep : Char} {l a b : Str}
    (h : splitFirst sep l = some (a, b)) : ¬ sep ∈ a ∧ l = a ++ sep :: b := by
  induction l generalizing a b with
  | nil => simp [splitFirst] at h
  | cons c cs ih =>
    rw [splitFirst] at h
    by_cases hc : c = sep
    · rw [if_pos hc] at h
      simp only [Option.some.injEq, Prod.mk.injEq] at h
      rcases h with ⟨rfl, rfl⟩
      simp [hc]
    · rw [if_neg hc] at h
      cases hsp : splitFirst sep cs with
      | none => rw [hsp] at h; simp at h
      | some ab =>
        rw [hsp] at h
        simp only [Option.some.injEq, Prod.mk.injEq] at h
        rcases h with ⟨rfl, rfl⟩
        rcases ih (a := ab.1) (b := ab.2) (by rw [hsp]) with ⟨hna, hcs⟩
        constructor
        · simp only [List.mem_cons, not_or]
          exact ⟨fun he => hc he.symm, hna⟩
        · rw [List.cons_append, ← hcs]

theorem mem_of_mem_splitAll {sep : Char} {x seg : Str}
    (hseg : seg ∈ splitAll sep x) {c : Char} (hc : c ∈ seg) : c ∈ x := by
  induction x generalizing seg with
  | nil =>
    simp only [splitAll, List.mem_singleton] at hseg
    subst hseg
    simp at hc
  | cons d ds ih =>
    rw [splitAll] at hseg
    by_cases hd : d = sep
    · rw [if_pos hd] at hseg
      rcases List.mem_cons.mp hseg with rfl | h2
      · simp at hc
      · exact List.mem_cons_of_mem d (ih h2 hc)
    · rw [if_neg hd] at hseg
      cases hsp : splitAll sep ds with
      | nil => exact absurd hsp (splitAll_ne_nil sep ds)
      | cons l0 ls =>
        rw [hsp] at hseg
        rcases List.mem_cons.mp (show seg ∈ (d :: l0) :: ls from hseg) with rfl | h2
        · rcases List.mem_cons.mp hc with rfl | h3
          · simp
          · exact List.mem_cons_of_mem d
              (ih (show l0 ∈ splitAll sep ds by rw [hsp]; simp) h3)
        · exact List.mem_cons_of_mem d
            (ih (show seg ∈ splitAll sep ds by rw [hsp]; simp [h2]) hc)

theorem breakFree_of_subset {x y : Str} (hx : breakFree x = true)
    (hsub : ∀ c ∈ y, c ∈ x) : breakFree y = true := by
  rw [breakFree, List.all_eq_true] at hx ⊢
  exact fun c hc => hx c (hsub c hc)

theorem pySplitlines_breakFree (s : Str) : ∀ l ∈ pySplitlines s, breakFree l = true := by
  induction s using pySplitlines.induct with
  | case1 => intro l hl; simp [pySplitlines] at hl
  | case2 cs ih =>
    intro l hl
    rw [show pySplitlines ('\x0d' :: '\n' :: cs) = [] :: pySplitlines cs from rfl] at hl
    rcases List.mem_cons.mp hl with rfl | h2
    · decide
    · exact ih l h2
  | case3 c cs hne hbrk ih =>
    intro l hl
    have hred : pySplitlines (c :: cs) = [] :: pySplitlines cs := by
      rw [pySplitlines.eq_def]
      split
      · rename_i heq; exact absurd heq (by simp)
      · rename_i cs2 heq
        injection heq with h1 h2
        exact (hne cs2 h1 h2).elim
      · rename_i c2 cs2 heq
        injection heq with h1 h2
        subst h1; subst h2
        rw [if_pos hbrk]
    rw [hred] at hl
    rcases List.mem_cons.mp hl with rfl | h2
    · decide
    · exact ih l h2
  | case4 c cs hne hbrk hnil ih =>
    intro l hl
    have hred : pySplitlines (c :: cs) = [[c]] := by
      rw [pySplitlines.eq_def]
      split
      · rename_i heq; exact absurd heq (by simp)
      · rename_i cs2 heq
        injection heq with h1 h2
        exact (hne cs2 h1 h2).elim
      · rename_i c2 cs2 heq
        injection heq with h1 h2
        subst h1; subst h2
        rw [if_neg hbrk, hnil]
    rw [hred] at hl
    rcases List.mem_singleton.mp hl with rfl
    have hcf : isLineBreak c = false := by simpa using hbrk
    simp [breakFree, hcf]
  | case5 c cs hne hbrk l0 ls hcons ih =>
    intro l hl
    have hred : pySplitlines (c :: cs) = (c :: l0) :: ls := by
      rw [pySplitlines.eq_def]
      split
      · rename_i heq; exact absurd heq (by simp)
      · rename_i cs2 heq
        injection heq with h1 h2
        exact (hne cs2 h1 h2).elim
      · rename_i c2 cs2 heq
        injection heq with h1 h2
        subst h1; subst h2
        rw [if_neg hbrk, hcons]
    rw [hred] at hl
    have hcfree : (!isLineBreak c) = true := by
      simp [Bool.not_eq_true', Bool.not_eq_true] at hbrk ⊢
      exact hbrk
    rcases List.mem_cons.mp hl with rfl | h2
    · rw [breakFree, List.all_cons, hcfree]
      have := ih l0 (by rw [hcons]; simp)
      rw [breakFree] at this
      simp [this]
    · exact ih l (by rw [hcons]; simp [h2])

/-! ## Dictionary-insertion lemmas -/

theorem any_key_iff {es : List (Str × CVal)} {k : Str} :
    (es.any (fun p => p.1 == k)) = true ↔ k ∈ es.map Prod.fst := by
  rw [List.any_eq_true]
  constructor
  · rintro ⟨p, hp, hb⟩
    exact List.mem_map.mpr ⟨p, hp, beq_iff_eq.mp hb⟩
  · intro hm
    rcases List.mem_map.mp hm with ⟨p, hp, hpk⟩
    exact ⟨p, hp, beq_iff_eq.mpr hpk⟩

theorem mem_dictInsert {es : List (Str × CVal)} {k : Str} {v : CVal} {p : Str × CVal}
    (h : p ∈ dictInsert es k v) : p ∈ es ∨ p = (k, v) := by
  unfold dictInsert at h
  by_cases hc : es.any (fun q => q.1 == k) = true
  · rw [if_pos hc] at h
    rcases List.mem_map.mp h with ⟨q, hq, hpq⟩
    by_cases hqk : (q.1 == k) = true
    · rw [if_pos hqk] at hpq
      right; exact hpq.symm
    · rw [if_neg hqk] at hpq
      left; rw [← hpq]; exact hq
  · rw [if_neg hc] at h
    rcases List.mem_append.mp h with h1 | h2
    · left; exact h1
    · right; exact List.mem_singleton.mp h2

theorem keys_dictInsert (es : List (Str × CVal)) (k : Str) (v : CVal) :
    (dictInsert es k v).map Prod.fst
      = if k ∈ es.map Prod.fst then es.map Prod.fst
        else es.map Prod.fst ++ [k] := by
  unfold dictInsert
  by_cases hc : es.any (fun q => q.1 == k) = true
  · rw [if_pos hc, if_pos (any_key_iff.mp hc), List.map_map]
    apply List.map_congr_left
    intro q hq
    by_cases hqk : (q.1 == k) = true
    · show Prod.fst (if q.1 == k then (k, v) else q) = q.1
      rw [if_pos hqk]
      exact (beq_iff_eq.mp hqk).symm
    · show Prod.fst (if q.1 == k then (k, v) else q) = q.1
      rw [if_neg hqk]
  · rw [if_neg hc, if_neg (fun hm => hc (any_key_iff.mpr hm))]
    simp

theorem keys_dictInsert_nodup {es : List (Str × CVal)} {k : Str} {v : CVal}
    (h : (es.map Prod.fst).Nodup) : ((dictInsert es k v).map Prod.fst).Nodup := by
  rw [keys_dictInsert]
  by_cases hm : k ∈ es.map Prod.fst
  · rw [if_pos hm]; exact h
  · rw [if_neg hm]
    simp [List.nodup_append, h, hm]

theorem keys_dictInsert_mono {es : List (Str × CVal)} {k x : Str} {v : CVal}
    (h : x ∈ es.map Prod.fst) : x ∈ (dictInsert es k v).map Prod.fst := by
  rw [keys_dictInsert]
  by_cases hm : k ∈ es.map Prod.fst
  · rw [if_pos hm]; exact h
  · rw [if_neg hm]; exact List.mem_append_left _ h

theorem self_mem_keys_dictInsert (es : List (Str × CVal)) (k : Str) (v : CVal) :
    k ∈ (dictInsert es k v).map Prod.fst := by
  rw [keys_dictInsert]
  by_cases hm : k ∈ es.map Prod.fst
  · rw [if_pos hm]; exact hm
  · rw [if_neg hm]; simp

/-! ## Shape of inferred scalars -/

theorem infer_shape (t : Str) :
    (∃ b, _infer_scalar t = .sb b) ∨ (∃ i, _infer_scalar t = .sint i) ∨
    _infer_scalar t = .sfloat t ∨ _infer_scalar t = .sstr t := by
  unfold _infer_scalar
  by_cases h1 : (pyLower t = str "true" ∨ pyLower t = str "false")
  · rw [if_pos h1]
    exact Or.inl ⟨_, rfl⟩
  · rw [if_neg h1]
    by_cases h2 : t.contains '.' = true
    · rw [if_pos h2]
      by_cases h3 : pyFloatOk t = true
      · rw [if_pos h3]; exact Or.inr (Or.inr (Or.inl rfl))
      · rw [if_neg h3]; exact Or.inr (Or.inr (Or.inr rfl))
    · rw [if_neg h2]
      cases hpi : pyInt t with
      | some i => exact Or.inr (Or.inl ⟨i, rfl⟩)
      | none => exact Or.inr (Or.inr (Or.inr rfl))

theorem breakFree_format_infer {t : Str} (hbf : breakFree t = true) :
    breakFree (formatScalar (_infer_scalar t)) = true := by
  rcases infer_shape t with ⟨b, hb⟩ | ⟨i, hi⟩ | hf | hs
  · rw [hb]; cases b <;> decide
  · rw [hi]; exact breakFree_intStr i
  · rw [hf]; exact hbf
  · rw [hs]; exact hbf

/-! ## Key-level behaviour of `parseLine` on arbitrary input -/

theorem pyRStrip_append_general (a b : Str) :
    pyRStrip (a ++ b) = if pyRStrip b = [] then pyRStrip a else a ++ pyRStrip b := by
  unfold pyRStrip
  rw [List.reverse_append, List.dropWhile_append]
  by_cases h : (b.reverse.dropWhile isPySpace).isEmpty = true
  · rw [if_pos h, if_pos]
    rw [List.isEmpty_iff] at h
    rw [h]
    rfl
  · rw [if_neg h, if_neg]
    · simp
    · rw [List.isEmpty_iff] at h
      intro hrev
      apply h
      have := congrArg List.reverse hrev
      simpa using this

theorem pyRStrip_ne_nil_of_nonspace {c : Char} {t : Str} (hc : isPySpace c = false) :
    pyRStrip (c :: t) ≠ [] := by
  unfold pyRStrip
  intro h
  have h2 : List.dropWhile isPySpace (c :: t).reverse = [] := by
    have := congrArg List.reverse h
    simpa using this
  rw [List.dropWhile_eq_nil_iff] at h2
  have := h2 c (by simp)
  rw [hc] at this
  exact Bool.false_ne_true this

theorem parseLine_serialized_key (es : List (Str × CVal)) {k : Str} (t : Str)
    (hk : GoodKey k = true) :
    ∃ v2, parseLine es (k ++ str "= " ++ t) = dictInsert es k v2 := by
  obtain ⟨hkne, hkstrip, hkeq, hkbf, hkpc, hkhash⟩ := goodKey_parts hk
  rcases List.exists_cons_of_ne_nil hkne with ⟨c, k2, hck⟩
  have heqcons : isPySpace '=' = false := by decide
  have hrb : pyRStrip ('=' :: ' ' :: t) ≠ [] := pyRStrip_ne_nil_of_nonspace heqcons
  rcases pyRStrip_cons_shape '=' (' ' :: t) with h0 | ⟨r, hr⟩
  · exact absurd h0 hrb
  · have hline : pyStrip (k ++ str "= " ++ t) = k ++ '=' :: r := by
      have h1 : k ++ str "= " ++ t = k ++ ('=' :: ' ' :: t) := by simp [str]
      rw [h1]
      unfold pyStrip
      rw [pyLStrip_append (pyLStrip_of_pyStrip hkstrip) hkne]
      rw [pyRStrip_append_general, if_neg hrb, hr]
    have hlineNe : k ++ '=' :: r ≠ [] := by simp [hck]
    have hstrpct : str "%" = ['%'] := rfl
    have hstrhash : str "#" = ['#'] := rfl
    have hpct : pyStartsWith (k ++ '=' :: r) (str "%") = false := by
      rw [hck] at hkpc
      rw [hstrpct, pyStartsWith_single] at hkpc
      rw [hck, List.cons_append, hstrpct, pyStartsWith_single]
      exact hkpc
    have hhash : pyStartsWith (k ++ '=' :: r) (str "#") = false := by
      rw [hck] at hkhash
      rw [hstrhash, pyStartsWith_single] at hkhash
      rw [hck, List.cons_append, hstrhash, pyStartsWith_single]
      exact hkhash
    have hsplit : splitFirst '=' (k ++ '=' :: r) = some (k, r) := splitFirst_append hkeq
    refine ⟨if (pyStrip r).contains ','
        then .vlist (((((splitAll ',' (pyStrip r)).map pyStrip).filter
          (fun s => s ≠ [])).map _infer_scalar))
        else .scalar (_infer_scalar (pyStrip r)), ?_⟩
    unfold parseLine
    rw [hline, if_neg hlineNe, if_neg (by simp [hpct, hhash]), hsplit]
    show (if pyStrip k = [] then es
      else if (pyStrip r).contains ','
        then dictInsert es (pyStrip k)
          (.vlist ((((splitAll ',' (pyStrip r)).map pyStrip).filter
            (fun s => s ≠ [])).map _infer_scalar))
        else dictInsert es (pyStrip k) (.scalar (_infer_scalar (pyStrip r))))
      = _
    rw [hkstrip, if_neg hkne]
    by_cases hcm : (pyStrip r).contains ',' = true
    · rw [if_pos hcm, if_pos hcm]
    · rw [if_neg hcm, if_neg hcm]

theorem parseLine_wf {es : List (Str × CVal)} {l : Str} (hl : breakFree l = true)
    (hwf : ∀ p ∈ es, GoodKey p.1 = true ∧ breakFree (_format_value p.2) = true) :
    ∀ p ∈ parseLine es l, GoodKey p.1 = true ∧ breakFree (_format_value p.2) = true := by
  intro p hp
  unfold parseLine at hp
  by_cases h1 : pyStrip l = []
  · rw [if_pos h1] at hp; exact hwf p hp
  rw [if_neg h1] at hp
  by_cases h2 : (pyStartsWith (pyStrip l) (str "%")
      || pyStartsWith (pyStrip l) (str "#")) = true
  · rw [if_pos h2] at hp; exact hwf p hp
  rw [if_neg h2] at hp
  cases hsp : splitFirst '=' (pyStrip l) with
  | none => rw [hsp] at hp; exact hwf p hp
  | some kv =>
    rw [hsp] at hp
    obtain ⟨kRaw, vRaw⟩ := kv
    have hp2 : p ∈ (if pyStrip kRaw = [] then es
        else if (pyStrip vRaw).contains ','
          then dictInsert es (pyStrip kRaw)
            (.vlist ((((splitAll ',' (pyStrip vRaw)).map pyStrip).filter
              (fun s => s ≠ [])).map _infer_scalar))
          else dictInsert es (pyStrip kRaw)
            (.scalar (_infer_scalar (pyStrip vRaw)))) := hp
    by_cases h3 : pyStrip kRaw = []
    · rw [if_pos h3] at hp2; exact hwf p hp2
    rw [if_neg h3] at hp2
    obtain ⟨hknomem, hdecomp⟩ := splitFirst_eq_some hsp
    have hmemline : ∀ c ∈ pyStrip kRaw, c ∈ l := by
      intro c hc
      apply mem_of_mem_pyStrip
      rw [hdecomp]
      exact List.mem_append_left _ (mem_of_mem_pyStrip hc)
    have hmemvalue : ∀ c ∈ pyStrip vRaw, c ∈ l := by
      intro c hc
      apply mem_of_mem_pyStrip
      rw [hdecomp]
      exact List.mem_append_right _ (List.mem_cons_of_mem _ (mem_of_mem_pyStrip hc))
    have hbfvalue : breakFree (pyStrip vRaw) = true :=
      breakFree_of_subset hl hmemvalue
    have hkRawne : kRaw ≠ [] := by
      intro h0; rw [h0] at h3; exact h3 rfl
    rcases List.exists_cons_of_ne_nil hkRawne with ⟨d, kR2, hdk⟩
    have hlstr : List.dropWhile isPySpace (pyStrip l) = pyStrip l := pyLStrip_pyStrip l
    have hd : isPySpace d = false := by
      apply dropWhile_head_false hlstr d (kR2 ++ '=' :: vRaw)
      rw [hdecomp, hdk, List.cons_append]
    have hkeyshape : ∃ r2, pyStrip kRaw = d :: r2 := by
      have hkey : pyStrip kRaw = pyRStrip (d :: kR2) := by
        rw [hdk]
        show pyRStrip (pyLStrip (d :: kR2)) = pyRStrip (d :: kR2)
        rw [pyLStrip_cons_nonspace hd]
      rcases pyRStrip_cons_shape d kR2 with hsh | ⟨r2, hr2⟩
      · rw [hkey, hsh] at h3; exact absurd rfl h3
      · exact ⟨r2, by rw [hkey, hr2]⟩
    rcases hkeyshape with ⟨r2, hkey⟩
    have hnotor : pyStartsWith (pyStrip l) (str "%") = false ∧
        pyStartsWith (pyStrip l) (str "#") = false := by
      have h2f : (pyStartsWith (pyStrip l) (str "%")
          || pyStartsWith (pyStrip l) (str "#")) = false := by
        simpa using h2
      exact Bool.or_eq_false_iff.mp h2f
    have hdpc : decide (d = '%') = false := by
      have := hnotor.1
      rw [hdecomp, hdk, List.cons_append,
        show str "%" = ['%'] from rfl, pyStartsWith_single] at this
      exact this
    have hdhash : decide (d = '#') = false := by
      have := hnotor.2
      rw [hdecomp, hdk, List.cons_append,
        show str "#" = ['#'] from rfl, pyStartsWith_single] at this
      exact this
    have hgoodkey : GoodKey (pyStrip kRaw) = true := by
      simp only [GoodKey, Bool.and_eq_true, Bool.not_eq_true', beq_iff_eq]
      refine ⟨⟨⟨⟨⟨?_, pyStrip_idem kRaw⟩, ?_⟩, ?_⟩, ?_⟩, ?_⟩
      · simp [h3]
      · simpa using (fun hm => hknomem (mem_of_mem_pyStrip hm) : ¬ '=' ∈ pyStrip kRaw)
      · exact breakFree_of_subset hl hmemline
      · rw [hkey, show str "%" = ['%'] from rfl, pyStartsWith_single]
        exact hdpc
      · rw [hkey, show str "#" = ['#'] from rfl, pyStartsWith_single]
        exact hdhash
    by_cases hcm : (pyStrip vRaw).contains ',' = true
    · rw [if_pos hcm] at hp2
      rcases mem_dictInsert hp2 with hin | hpe
      · exact hwf p hin
      · rw [hpe]
        refine ⟨hgoodkey, ?_⟩
        show breakFree (pyJoin (str ", ")
          (((((splitAll ',' (pyStrip vRaw)).map pyStrip).filter
            (fun s => s ≠ [])).map _infer_scalar).map formatScalar)) = true
        apply breakFree_pyJoin
        intro q hq
        rcases List.mem_map.mp hq with ⟨sc, hsc, rfl⟩
        rcases List.mem_map.mp hsc with ⟨part, hpart, rfl⟩
        have hpart2 := List.mem_of_mem_filter hpart
        rcases List.mem_map.mp hpart2 with ⟨seg, hseg, rfl⟩
        have hbfpart : breakFree (pyStrip seg) = true := by
          apply breakFree_of_subset hbfvalue
          intro c hc
          exact mem_of_mem_splitAll hseg (mem_of_mem_pyStrip hc)
        exact breakFree_format_infer hbfpart
    · rw [if_neg hcm] at hp2
      rcases mem_dictInsert hp2 with hin | hpe
      · exact hwf p hin
      · rw [hpe]
        exact ⟨hgoodkey, breakFree_format_infer hbfvalue⟩

theorem parse_config_wf (t : Str) :
    ∀ p ∈ parse_config_text t,
      GoodKey p.1 = true ∧ breakFree (_format_value p.2) = true := by
  have haux : ∀ (lines : List Str) (acc : List (Str × CVal)),
      (∀ l ∈ lines, breakFree l = true) →
      (∀ p ∈ acc, GoodKey p.1 = true ∧ breakFree (_format_value p.2) = true) →
      ∀ p ∈ lines.foldl parseLine acc,
        GoodKey p.1 = true ∧ breakFree (_format_value p.2) = true := by
    intro lines
    induction lines with
    | nil => intro acc _ hacc p hp; exact hacc p hp
    | cons l rest ih =>
      intro acc hbf hacc p hp
      rw [List.foldl_cons] at hp
      exact ih (parseLine acc l) (fun x hx => hbf x (by simp [hx]))
        (parseLine_wf (hbf l (by simp)) hacc) p hp
  exact haux (pySplitlines t) [] (pySplitlines_breakFree t) (by simp)

theorem parseLine_cases (es : List (Str × CVal)) (l : Str) :
    parseLine es l = es ∨ ∃ k v, parseLine es l = dictInsert es k v := by
  unfold parseLine
  by_cases h1 : pyStrip l = []
  · rw [if_pos h1]; left; rfl
  rw [if_neg h1]
  by_cases h2 : (pyStartsWith (pyStrip l) (str "%")
      || pyStartsWith (pyStrip l) (str "#")) = true
  · rw [if_pos h2]; left; rfl
  rw [if_neg h2]
  cases hsp : splitFirst '=' (pyStrip l) with
  | none => left; rfl
  | some kv =>
    by_cases h3 : pyStrip kv.1 = []
    · left
      show (if pyStrip kv.1 = [] then es
        else if (pyStrip kv.2).contains ','
          then dictInsert es (pyStrip kv.1)
            (.vlist ((((splitAll ',' (pyStrip kv.2)).map pyStrip).filter
              (fun s => s ≠ [])).map _infer_scalar))
          else dictInsert es (pyStrip kv.1)
            (.scalar (_infer_scalar (pyStrip kv.2)))) = es
      rw [if_pos h3]
    · right
      refine ⟨pyStrip kv.1,
        if (pyStrip kv.2).contains ','
          then .vlist ((((splitAll ',' (pyStrip kv.2)).map pyStrip).filter
            (fun s => s ≠ [])).map _infer_scalar)
          else .scalar (_infer_scalar (pyStrip kv.2)), ?_⟩
      show (if pyStrip kv.1 = [] then es
        else if (pyStrip kv.2).contains ','
          then dictInsert es (pyStrip kv.1)
            (.vlist ((((splitAll ',' (pyStrip kv.2)).map pyStrip).filter
              (fun s => s ≠ [])).map _infer_scalar))
          else dictInsert es (pyStrip kv.1)
            (.scalar (_infer_scalar (pyStrip kv.2)))) = _
      rw [if_neg h3]
      by_cases hcm : (pyStrip kv.2).contains ',' = true
      · rw [if_pos hcm, if_pos hcm]
      · rw [if_neg hcm, if_neg hcm]

theorem parse_config_nodup (t : Str) :
    ((parse_config_text t).map Prod.fst).Nodup := by
  have haux : ∀ (lines : List Str) (acc : List (Str × CVal)),
      (acc.map Prod.fst).Nodup → ((lines.foldl parseLine acc).map Prod.fst).Nodup := by
    intro lines
    induction lines with
    | nil => intro acc h; exact h
    | cons l rest ih =>
      intro acc h
      rw [List.foldl_cons]
      apply ih
      rcases parseLine_cases acc l with he | ⟨k, v, he⟩
      · rw [he]; exact h
      · rw [he]; exact keys_dictInsert_nodup h
  exact haux (pySplitlines t) [] (by simp)

theorem foldl_parseLine_keys (es : List (Str × CVal)) :
    ∀ acc : List (Str × CVal),
      (∀ p ∈ es, GoodKey p.1 = true) →
      (∀ p ∈ es, p.1 ∉ acc.map Prod.fst) →
      (es.map Prod.fst).Nodup →
      ((_serialize_entries es).foldl parseLine acc).map Prod.fst
        = acc.map Prod.fst ++ es.map Prod.fst := by
  induction es with
  | nil => intro acc _ _ _; simp [_serialize_entries]
  | cons kv rest ih =>
    intro acc hk hdisj hnd
    have hnd2 : kv.1 ∉ rest.map Prod.fst ∧ (rest.map Prod.fst).Nodup := by
      rw [List.map_cons, List.nodup_cons] at hnd
      exact hnd
    rw [show _serialize_entries (kv :: rest)
        = (kv.1 ++ str "= " ++ _format_value kv.2) :: _serialize_entries rest from rfl]
    rw [List.foldl_cons]
    obtain ⟨v2, hv2⟩ := parseLine_serialized_key acc (_format_value kv.2) (hk kv (by simp))
    rw [hv2]
    have hkeys : (dictInsert acc kv.1 v2).map Prod.fst = acc.map Prod.fst ++ [kv.1] := by
      rw [keys_dictInsert, if_neg (hdisj kv (by simp))]
    have hdisj2 : ∀ p ∈ rest, p.1 ∉ (dictInsert acc kv.1 v2).map Prod.fst := by
      intro p hp
      rw [hkeys]
      intro hm
      rcases List.mem_append.mp hm with hm1 | hm2
      · exact hdisj p (by simp [hp]) hm1
      · exact hnd2.1 ((List.mem_singleton.mp hm2) ▸ List.mem_map_of_mem Prod.fst hp)
    rw [ih (dictInsert acc kv.1 v2) (fun p hp => hk p (by simp [hp])) hdisj2 hnd2.2,
      hkeys]
    simp

theorem keys_parse_serialize (es : List (Str × CVal))
    (hk : ∀ p ∈ es, GoodKey p.1 = true)
    (hbf : ∀ p ∈ es, breakFree (_format_value p.2) = true)
    (hnd : (es.map Prod.fst).Nodup) :
    (parse_config_text (serialize_config es)).map Prod.fst = es.map Prod.fst := by
  match es with
  | [] => decide
  | kv :: rest =>
    have hne : _serialize_entries (kv :: rest) ≠ [] := by
      simp [_serialize_entries]
    have hbfl : ∀ l ∈ _serialize_entries (kv :: rest), breakFree l = true := by
      intro l hl
      rcases List.mem_map.mp hl with ⟨p, hp, rfl⟩
      rw [breakFree_append, breakFree_append,
        (goodKey_parts (hk p hp)).2.2.2.1, hbf p hp]
      decide
    unfold serialize_config parse_config_text
    rw [pySplitlines_join hne hbfl]
    have := foldl_parseLine_keys (kv :: rest) [] hk (by simp) hnd
    simpa using this

/-! ## The update fold of `update_config_entries` -/

theorem update_fold_wf (ci : Bool) (updates : List (Str × CVal)) :
    ∀ (es0 : List (Str × CVal)) (ks0 : List Str),
      (∀ p ∈ es0, GoodKey p.1 = true ∧ breakFree (_format_value p.2) = true) →
      (∀ p ∈ updates, breakFree (_format_value p.2) = true) →
      (ci = true → ∀ p ∈ updates, GoodKey p.1 = true) →
      ∀ p ∈ (updates.foldl
          (fun acc kv =>
            if acc.1.any (fun p => p.1 == kv.1) || ci then
              (dictInsert acc.1 kv.1 kv.2, acc.2 ++ [kv.1])
            else acc)
          (es0, ks0)).1,
        GoodKey p.1 = true ∧ breakFree (_format_value p.2) = true := by
  induction updates with
  | nil => intro es0 ks0 hwf0 _ _ p hp; exact hwf0 p hp
  | cons kv rest ih =>
    intro es0 ks0 hwf0 hbf hgk
    rw [List.foldl_cons]
    by_cases htest : (es0.any (fun p => p.1 == kv.1) || ci) = true
    · rw [if_pos htest]
      apply ih (dictInsert es0 kv.1 kv.2) (ks0 ++ [kv.1])
      · intro p hp
        rcases mem_dictInsert hp with hin | hpe
        · exact hwf0 p hin
        · rw [hpe]
          have hgood : GoodKey kv.1 = true := by
            rcases Bool.or_eq_true_iff.mp htest with hany | hci
            · rcases List.mem_map.mp (any_key_iff.mp hany) with ⟨q, hq, hqk⟩
              exact hqk ▸ (hwf0 q hq).1
            · exact hgk hci kv (by simp)
          exact ⟨hgood, hbf kv (by simp)⟩
      · exact fun p hp => hbf p (by simp [hp])
      · exact fun hci p hp => hgk hci p (by simp [hp])
    · rw [if_neg htest]
      exact ih es0 ks0 hwf0 (fun p hp => hbf p (by simp [hp]))
        (fun hci p hp => hgk hci p (by simp [hp]))

theorem update_fold_nodup (ci : Bool) (updates : List (Str × CVal)) :
    ∀ (es0 : List (Str × CVal)) (ks0 : List Str),
      (es0.map Prod.fst).Nodup →
      (((updates.foldl
          (fun acc kv =>
            if acc.1.any (fun p => p.1 == kv.1) || ci then
              (dictInsert acc.1 kv.1 kv.2, acc.2 ++ [kv.1])
            else acc)
          (es0, ks0)).1).map Prod.fst).Nodup := by
  induction updates with
  | nil => intro es0 ks0 h; exact h
  | cons kv rest ih =>
    intro es0 ks0 h
    rw [List.foldl_cons]
    by_cases htest : (es0.any (fun p => p.1 == kv.1) || ci) = true
    · rw [if_pos htest]
      exact ih _ _ (keys_dictInsert_nodup h)
    · rw [if_neg htest]
      exact ih es0 ks0 h

theorem update_fold_false (updates : List (Str × CVal)) (K : List Str) :
    ∀ (es0 : List (Str × CVal)) (ks0 : List Str), es0.map Prod.fst = K →
      ((updates.foldl
          (fun acc kv =>
            if acc.1.any (fun p => p.1 == kv.1) || false then
              (dictInsert acc.1 kv.1 kv.2, acc.2 ++ [kv.1])
            else acc)
          (es0, ks0)).1.map Prod.fst = K
       ∧ (updates.foldl
          (fun acc kv =>
            if acc.1.any (fun p => p.1 == kv.1) || false then
              (dictInsert acc.1 kv.1 kv.2, acc.2 ++ [kv.1])
            else acc)
          (es0, ks0)).2
          = ks0 ++ (updates.map Prod.fst).filter (fun k => decide (k ∈ K))) := by
  induction updates with
  | nil => intro es0 ks0 hK; exact ⟨hK, by simp⟩
  | cons kv rest ih =>
    intro es0 ks0 hK
    rw [List.foldl_cons]
    by_cases hm : kv.1 ∈ K
    · have hany : (es0.any (fun p => p.1 == kv.1) || false) = true := by
        rw [Bool.or_false]
        exact any_key_iff.mpr (hK ▸ hm)
      rw [if_pos hany]
      have hK2 : (dictInsert es0 kv.1 kv.2).map Prod.fst = K := by
        rw [keys_dictInsert, if_pos (hK ▸ hm : kv.1 ∈ es0.map Prod.fst), hK]
      rcases ih (dictInsert es0 kv.1 kv.2) (ks0 ++ [kv.1]) hK2 with ⟨h1, h2⟩
      refine ⟨h1, ?_⟩
      rw [h2, List.map_cons, List.filter_cons, if_pos (by simpa using hm)]
      simp
    · have hany : (es0.any (fun p => p.1 == kv.1) || false) = false := by
        rw [Bool.or_false, Bool.eq_false_iff]
        intro hany0
        exact hm (hK ▸ any_key_iff.mp hany0)
      rw [if_neg (by simp [hany])]
      rcases ih es0 ks0 hK with ⟨h1, h2⟩
      refine ⟨h1, ?_⟩
      rw [h2, List.map_cons, List.filter_cons, if_neg (by simpa using hm)]

theorem update_fold_true (updates : List (Str × CVal)) :
    ∀ (es0 : List (Str × CVal)) (ks0 : List Str),
      ((updates.foldl
          (fun acc kv =>
            if acc.1.any (fun p => p.1 == kv.1) || true then
              (dictInsert acc.1 kv.1 kv.2, acc.2 ++ [kv.1])
            else acc)
          (es0, ks0)).2 = ks0 ++ updates.map Prod.fst)
      ∧ ∀ k, (k ∈ es0.map Prod.fst ∨ k ∈ updates.map Prod.fst) →
          k ∈ ((updates.foldl
            (fun acc kv =>
              if acc.1.any (fun p => p.1 == kv.1) || true then
                (dictInsert acc.1 kv.1 kv.2, acc.2 ++ [kv.1])
              else acc)
            (es0, ks0)).1).map Prod.fst := by
  induction updates with
  | nil =>
    intro es0 ks0
    refine ⟨by simp, ?_⟩
    intro k hk
    rcases hk with h | h
    · exact h
    · simp at h
  | cons kv rest ih =>
    intro es0 ks0
    rw [List.foldl_cons, if_pos (by rw [Bool.or_true])]
    rcases ih (dictInsert es0 kv.1 kv.2) (ks0 ++ [kv.1]) with ⟨h1, h2⟩
    constructor
    · rw [h1]; simp
    · intro k hk
      rcases hk with h | h
      · exact h2 k (Or.inl (keys_dictInsert_mono h))
      · rw [List.map_cons] at h
        rcases List.mem_cons.mp h with rfl | hrest
        · exact h2 kv.1 (Or.inl (self_mem_keys_dictInsert es0 kv.1 kv.2))
        · exact h2 k (Or.inr hrest)

namespace SessionManager

theorem ensureLines_eq (name : Str) (ls : List Str) :
    ensureLines name ls
      = (ls.map (fun l =>
            if pyStartsWith (pyStrip l) (str "MESH_FILENAME") then meshDeclLine name else l),
         ls.any (fun l => pyStartsWith (pyStrip l) (str "MESH_FILENAME"))) := by
  induction ls with
  | nil => rfl
  | cons line rest ih =>
    simp only [ensureLines, ih, List.map_cons, List.any_cons]
    by_cases h : pyStartsWith (pyStrip line) (str "MESH_FILENAME") = true
    · simp [h]
    · simp [h, Bool.false_or]

end SessionManager

/-! ## Claim C3 (config serialize/parse round-trip) -/

/-- Claim C4, counterexample: an update value containing a line break
smuggles a fresh key into the file even with `create_if_missing = false`.
Updating existing key `A` of the file `A= 1` to the string `0\nB= 2`
writes the file `A= 0\nB= 2`, whose parse now contains the key `B`,
absent from the original file — so "writes no key that was absent from
the file before the call" is false as stated. -/
theorem update_config_entries_cx :
    (str "B") ∈ (parse_config_text
        (update_config_entries (str "A= 1")
          [(str "A", CVal.scalar (Scalar.sstr (str "0\nB= 2")))] false).1).map Prod.fst
    ∧ ¬ (str "B") ∈ (parse_config_text (str "A= 1")).map Prod.fst := by
  decide

/-- Claim C4 as amended: provided every update value serializes to
line-break-free text (ruling out the newline-injection counterexample),
`update_config_entries` with `create_if_missing = false` leaves the set
(and order) of keys in the file unchanged and returns exactly the
requested keys that already existed in the parsed file; with
`create_if_missing = true` and well-formed update keys it returns every
requested key and every requested key is present in the rewritten file.
Keys satisfying neither condition are silently skipped: the fold leaves
them out of `updated_keys` without failing. -/
theorem update_config_entries_spec (text : Str) (updates : List (Str × CVal))
    (hbf : ∀ p ∈ updates, breakFree (_format_value p.2) = true) :
    ((parse_config_text (update_config_entries text updates false).1).map Prod.fst
        = (parse_config_text text).map Prod.fst)
    ∧ ((update_config_entries text updates false).2
        = (updates.map Prod.fst).filter
            (fun k => decide (k ∈ (parse_config_text text).map Prod.fst)))
    ∧ ((∀ p ∈ updates, GoodKey p.1 = true) →
        (update_config_entries text updates true).2 = updates.map Prod.fst
        ∧ ∀ k ∈ updates.map Prod.fst,
            k ∈ (parse_config_text
              (update_config_entries text updates true).1).map Prod.fst) := by
  have hwf0 := parse_config_wf text
  have hnd0 := parse_config_nodup text
  have hfalse_eq : update_config_entries text updates false
      = (serialize_config (updates.foldl
          (fun acc kv =>
            if acc.1.any (fun p => p.1 == kv.1) || false then
              (dictInsert acc.1 kv.1 kv.2, acc.2 ++ [kv.1])
            else acc)
          (parse_config_text text, [])).1,
        (updates.foldl
          (fun acc kv =>
            if acc.1.any (fun p => p.1 == kv.1) || false then
              (dictInsert acc.1 kv.1 kv.2, acc.2 ++ [kv.1])
            else acc)
          (parse_config_text text, [])).2) := rfl
  have htrue_eq : update_config_entries text updates true
      = (serialize_config (updates.foldl
          (fun acc kv =>
            if acc.1.any (fun p => p.1 == kv.1) || true then
              (dictInsert acc.1 kv.1 kv.2, acc.2 ++ [kv.1])
            else acc)
          (parse_config_text text, [])).1,
        (updates.foldl
          (fun acc kv =>
            if acc.1.any (fun p => p.1 == kv.1) || true then
              (dictInsert acc.1 kv.1 kv.2, acc.2 ++ [kv.1])
            else acc)
          (parse_config_text text, [])).2) := rfl
  rcases update_fold_false updates ((parse_config_text text).map Prod.fst)
      (parse_config_text text) [] rfl with ⟨hfk, hfu⟩
  have hwfF := update_fold_wf false updates (parse_config_text text) [] hwf0 hbf
    (fun h => absurd h (by decide))
  have hndF := update_fold_nodup false updates (parse_config_text text) [] hnd0
  refine ⟨?_, ?_, ?_⟩
  · rw [hfalse_eq]
    rw [keys_parse_serialize _ (fun p hp => (hwfF p hp).1) (fun p hp => (hwfF p hp).2) hndF]
    exact hfk
  · rw [hfalse_eq]
    simpa using hfu
  · intro hgk
    rcases update_fold_true updates (parse_config_text text) [] with ⟨htu, htk⟩
    have hwfT := update_fold_wf true updates (parse_config_text text) [] hwf0 hbf
      (fun _ => hgk)
    have hndT := update_fold_nodup true updates (parse_config_text text) [] hnd0
    constructor
    · rw [htrue_eq]
      simpa using htu
    · intro k hk
      rw [htrue_eq]
      rw [keys_parse_serialize _ (fun p hp => (hwfT p hp).1) (fun p hp => (hwfT p hp).2) hndT]
      exact htk k (Or.inr hk)

/-- Claim C4 witness: the amended theorem applied to the file `A= 1`
with updates for the existing key `A` and the fresh key `C`, with both
flag values. -/
theorem update_config_entries_spec_witness :
    ((parse_config_text (update_config_entries (str "A= 1")
        [(str "A", CVal.scalar (Scalar.sb false)),
         (str "C", CVal.scalar (Scalar.sstr (str "x")))] false).1).map Prod.fst
      = (parse_config_text (str "A= 1")).map Prod.fst)
    ∧ ((update_config_entries (str "A= 1")
        [(str "A", CVal.scalar (Scalar.sb false)),
         (str "C", CVal.scalar (Scalar.sstr (str "x")))] false).2
      = ([str "A", str "C"]).filter
          (fun k => decide (k ∈ (parse_config_text (str "A= 1")).map Prod.fst)))
    ∧ ((update_config_entries (str "A= 1")
        [(str "A", CVal.scalar (Scalar.sb false)),
         (str "C", CVal.scalar (Scalar.sstr (str "x")))] true).2 = [str "A", str "C"]
       ∧ ∀ k ∈ [str "A", str "C"],
          k ∈ (parse_config_text (update_config_entries (str "A= 1")
            [(str "A", CVal.scalar (Scalar.sb false)),
             (str "C", CVal.scalar (Scalar.sstr (str "x")))] true).1).map Prod.fst) := by
  have h := update_config_entries_spec (str "A= 1")
    [(str "A", CVal.scalar (Scalar.sb false)),
     (str "C", CVal.scalar (Scalar.sstr (str "x")))] (by decide)
  exact ⟨h.1, h.2.1, h.2.2 (by decide)⟩

/-! ## Claim C2 (MESH_FILENAME rewriting on session creation and mesh upload) -/

/-- Claim C2, counterexample: the source replaces every line whose
stripped text merely starts with `"MESH_FILENAME"`.  On a config whose
only line declares the different key `MESH_FILENAMES`, the claim demands
that the line be preserved and a `MESH_FILENAME` declaration appended, but
the code clobbers the unrelated line instead, so the two rewrites
disagree. -/
theorem ensure_mesh_filename_cx :
    SessionManager.ensure_mesh_filename_in_config
        (str "MESH_FILENAMES= other.su2") (str "mesh.su2")
      ≠ SessionManager.ensure_mesh_filename_claimed
        (str "MESH_FILENAMES= other.su2") (str "mesh.su2") := by
  decide

/-- Claim C2 as amended: the config rewrite performed on session creation
with an initial mesh and on every mesh upload replaces, in place, every
line whose stripped text starts with `"MESH_FILENAME"` (not only exact
declarations of that key) by `MESH_FILENAME= <mesh_file_name>`, preserves
every other line unchanged and in order, appends the declaration exactly
when no line matched, terminates the file with a newline, and the
resulting line list always contains the declaration line. -/
theorem ensure_mesh_filename_result (cfg name : Str) :
    SessionManager.ensure_mesh_filename_in_config cfg name
      = pyJoin (str "\n")
          ((pySplitlines cfg).map (fun l =>
              if pyStartsWith (pyStrip l) (str "MESH_FILENAME")
              then SessionManager.meshDeclLine name else l)
            ++ (if (pySplitlines cfg).any
                    (fun l => pyStartsWith (pyStrip l) (str "MESH_FILENAME"))
                then [] else [SessionManager.meshDeclLine name]))
        ++ str "\n"
    ∧ SessionManager.meshDeclLine name
        ∈ ((pySplitlines cfg).map (fun l =>
              if pyStartsWith (pyStrip l) (str "MESH_FILENAME")
              then SessionManager.meshDeclLine name else l)
            ++ (if (pySplitlines cfg).any
                    (fun l => pyStartsWith (pyStrip l) (str "MESH_FILENAME"))
                then [] else [SessionManager.meshDeclLine name])) := by
  constructor
  · rw [SessionManager.ensure_mesh_filename_in_config, SessionManager.ensureLines_eq]
    by_cases h : (pySplitlines cfg).any
        (fun l => pyStartsWith (pyStrip l) (str "MESH_FILENAME")) = true
    · simp [h]
    · simp [h]
  · by_cases h : (pySplitlines cfg).any
        (fun l => pyStartsWith (pyStrip l) (str "MESH_FILENAME")) = true
    · rcases List.any_eq_true.mp h with ⟨l, hl, hp⟩
      refine List.mem_append_left _ ?_
      exact List.mem_map.mpr ⟨l, hl, by simp [hp]⟩
    · simp [h]

/-! ## Path and base64 lemmas -/

theorem check_iff_within (wd full : PurePath) :
    (wd ∈ parents full ∨ wd = full) ↔ within wd full := by
  constructor
  · rintro (hp | rfl)
    · unfold parents at hp
      rcases List.mem_map.mp hp with ⟨i, _, rfl⟩
      exact ⟨rfl, ⟨full.comps.drop i, by simp⟩⟩
    · exact ⟨rfl, ⟨[], by simp⟩⟩
  · rintro ⟨habs, ⟨t, ht⟩⟩
    obtain ⟨wa, wc⟩ := wd
    obtain ⟨fa, fc⟩ := full
    simp only at habs ht
    have hlen2 : wc.length + t.length = fc.length := by
      have := congrArg List.length ht
      simpa using this
    by_cases hlen : wc.length = fc.length
    · right
      have htn : t = [] := List.length_eq_zero.mp (by omega)
      rw [htn, List.append_nil] at ht
      rw [habs, ht]
    · left
      unfold parents
      apply List.mem_map.mpr
      refine ⟨wc.length, ?_, ?_⟩
      · exact List.mem_range.mpr (show wc.length < fc.length by omega)
      · simp only [PurePath.mk.injEq]
        refine ⟨habs.symm, ?_⟩
        rw [← ht, List.take_left]

theorem b64Val_b64Char : ∀ i, i < 64 → b64Val (b64Char i) = i := by decide

theorem b64Char_ne_pad : ∀ i, i < 64 → b64Char i ≠ '=' := by decide

theorem b64Char_ok : ∀ i, i < 64 → (isB64Char (b64Char i) || b64Char i = '=') = true := by
  decide

theorem b64encode_chars (bs : List Nat) :
    (∀ b ∈ bs, b < 256) → ∀ c ∈ b64encode bs, (isB64Char c || c = '=') = true := by
  induction bs using b64encode.induct with
  | case1 => intro _ c hc; simp [b64encode] at hc
  | case2 b0 =>
    intro h c hc
    have hb0 : b0 < 256 := h b0 (by simp)
    rw [show b64encode [b0] = [b64Char (b0 / 4), b64Char (b0 % 4 * 16), '=', '=']
        from rfl] at hc
    simp only [List.mem_cons] at hc
    rcases hc with rfl | rfl | rfl | rfl | h0
    · exact b64Char_ok _ (by omega)
    · exact b64Char_ok _ (by omega)
    · decide
    · decide
    · simp at h0
  | case3 b0 b1 =>
    intro h c hc
    have hb0 : b0 < 256 := h b0 (by simp)
    have hb1 : b1 < 256 := h b1 (by simp)
    rw [show b64encode [b0, b1] = [b64Char (b0 / 4), b64Char (b0 % 4 * 16 + b1 / 16),
        b64Char (b1 % 16 * 4), '='] from rfl] at hc
    simp only [List.mem_cons] at hc
    rcases hc with rfl | rfl | rfl | rfl | h0
    · exact b64Char_ok _ (by omega)
    · exact b64Char_ok _ (by omega)
    · exact b64Char_ok _ (by omega)
    · decide
    · simp at h0
  | case4 b0 b1 b2 rest ih =>
    intro h c hc
    have hb0 : b0 < 256 := h b0 (by simp)
    have hb1 : b1 < 256 := h b1 (by simp)
    have hb2 : b2 < 256 := h b2 (by simp)
    rw [show b64encode (b0 :: b1 :: b2 :: rest)
        = b64Char (b0 / 4) :: b64Char (b0 % 4 * 16 + b1 / 16) ::
          b64Char (b1 % 16 * 4 + b2 / 64) :: b64Char (b2 % 64) :: b64encode rest
        from rfl] at hc
    simp only [List.mem_cons] at hc
    rcases hc with rfl | rfl | rfl | rfl | h0
    · exact b64Char_ok _ (by omega)
    · exact b64Char_ok _ (by omega)
    · exact b64Char_ok _ (by omega)
    · exact b64Char_ok _ (by omega)
    · exact ih (fun b hb => h b (by simp [hb])) c h0

theorem decodeQuads_b64encode (bs : List Nat) :
    (∀ b ∈ bs, b < 256) → decodeQuads (b64encode bs) = some bs := by
  induction bs using b64encode.induct with
  | case1 => intro _; rfl
  | case2 b0 =>
    intro h
    have hb0 : b0 < 256 := h b0 (by simp)
    rw [show b64encode [b0] = [b64Char (b0 / 4), b64Char (b0 % 4 * 16), '=', '=']
        from rfl]
    rw [decodeQuads]
    rw [if_neg, if_pos rfl, if_pos rfl]
    · rw [show decodeQuads [] = some [] from rfl]
      simp only [Option.map_some']
      congr 1
      rw [b64Val_b64Char _ (by omega), b64Val_b64Char _ (by omega)]
      congr 1
      omega
    · simp only [Bool.or_eq_true, decide_eq_true_eq, not_or]
      exact ⟨b64Char_ne_pad (b0 / 4) (by omega),
        b64Char_ne_pad (b0 % 4 * 16) (by omega)⟩
  | case3 b0 b1 =>
    intro h
    have hb0 : b0 < 256 := h b0 (by simp)
    have hb1 : b1 < 256 := h b1 (by simp)
    rw [show b64encode [b0, b1] = [b64Char (b0 / 4), b64Char (b0 % 4 * 16 + b1 / 16),
        b64Char (b1 % 16 * 4), '='] from rfl]
    rw [decodeQuads]
    rw [if_neg, if_neg, if_pos rfl]
    · rw [show decodeQuads [] = some [] from rfl]
      simp only [Option.map_some']
      congr 1
      rw [b64Val_b64Char _ (by omega), b64Val_b64Char _ (by omega),
        b64Val_b64Char _ (by omega)]
      congr 1
      · omega
      · congr 1
        omega
    · exact b64Char_ne_pad (b1 % 16 * 4) (by omega)
    · simp only [Bool.or_eq_true, decide_eq_true_eq, not_or]
      exact ⟨b64Char_ne_pad (b0 / 4) (by omega),
        b64Char_ne_pad (b0 % 4 * 16 + b1 / 16) (by omega)⟩
  | case4 b0 b1 b2 rest ih =>
    intro h
    have hb0 : b0 < 256 := h b0 (by simp)
    have hb1 : b1 < 256 := h b1 (by simp)
    have hb2 : b2 < 256 := h b2 (by simp)
    rw [show b64encode (b0 :: b1 :: b2 :: rest)
        = b64Char (b0 / 4) :: b64Char (b0 % 4 * 16 + b1 / 16) ::
          b64Char (b1 % 16 * 4 + b2 / 64) :: b64Char (b2 % 64) :: b64encode rest
        from rfl]
    rw [decodeQuads]
    rw [if_neg, if_neg, if_neg]
    · rw [ih (fun b hb => h b (by simp [hb]))]
      simp only [Option.map_some']
      congr 1
      rw [b64Val_b64Char _ (by omega), b64Val_b64Char _ (by omega),
        b64Val_b64Char _ (by omega), b64Val_b64Char _ (by omega)]
      congr 1
      · omega
      · congr 1
        · omega
        · congr 1
          omega
    · exact b64Char_ne_pad (b2 % 64) (by omega)
    · exact b64Char_ne_pad (b1 % 16 * 4 + b2 / 64) (by omega)
    · simp only [Bool.or_eq_true, decide_eq_true_eq, not_or]
      exact ⟨b64Char_ne_pad (b0 / 4) (by omega),
        b64Char_ne_pad (b0 % 4 * 16 + b1 / 16) (by omega)⟩

theorem pyB64Decode_b64encode (bs : List Nat) (h : ∀ b ∈ bs, b < 256) :
    pyB64Decode (b64encode bs) = some bs := by
  unfold pyB64Decode
  rw [List.filter_eq_self.mpr (b64encode_chars bs h), decodeQuads_b64encode bs h]

/-! ## Claim C7 (path escape validation) -/

/-- Claim C7: `get_result_file_base64` returns the `validation_error`
envelope exactly when the resolved join of the working directory and the
relative path is neither the working directory itself nor one of its
descendants; when the resolved path lies within the working directory,
the validation branch is never taken (the result is a payload or a
`not_found` error, never `validation_error`).  Paths are compared
lexically, as `Path.resolve` does on a symlink-free tree. -/
theorem get_result_file_validation (wd : PurePath) (files : List (PurePath × List Nat))
    (rel : PurePath) (mb : Nat) :
    (¬ within wd (resolve (pathJoin wd rel)) →
      get_result_file_base64 wd files rel mb = .error (str "validation_error"))
    ∧ (within wd (resolve (pathJoin wd rel)) →
      get_result_file_base64 wd files rel mb ≠ .error (str "validation_error")) := by
  have hcode : get_result_file_base64 wd files rel mb
      = if ¬ wd ∈ parents (resolve (pathJoin wd rel))
            ∧ wd ≠ resolve (pathJoin wd rel)
        then .error (str "validation_error")
        else
          match findFile files (resolve (pathJoin wd rel)) with
          | none => .error (str "not_found")
          | some bytes =>
            .ok { size_bytes := bytes.length
                  truncated := bytes.length > mb
                  data := bytes.take mb
                  data_base64 := b64encode (bytes.take mb) } := rfl
  constructor
  · intro hout
    rw [hcode, if_pos]
    rw [← check_iff_within] at hout
    push_neg at hout
    exact hout
  · intro hin
    rw [hcode, if_neg]
    · cases hf : findFile files (resolve (pathJoin wd rel)) with
      | none =>
        intro hcontra
        have : str "not_found" = str "validation_error" := by
          injection hcontra
        revert this
        decide
      | some bytes =>
        intro hcontra
        exact FileResult.noConfusion hcontra
    · rw [← check_iff_within] at hin
      intro hcond
      rcases hin with hp | he
      · exact hcond.1 hp
      · exact hcond.2 he

/-- Claim C7 witness: inside a working directory `/w`, the relative path
`../x` resolves outside and is rejected with `validation_error`, while
`out.csv` resolves inside and is not rejected. -/
theorem get_result_file_validation_witness :
    (get_result_file_base64 ⟨true, [str "w"]⟩ [] ⟨false, [str "..", str "x"]⟩ 10
        = .error (str "validation_error"))
    ∧ (get_result_file_base64 ⟨true, [str "w"]⟩ [] ⟨false, [str "out.csv"]⟩ 10
        ≠ .error (str "validation_error")) :=
  ⟨(get_result_file_validation ⟨true, [str "w"]⟩ [] ⟨false, [str "..", str "x"]⟩ 10).1
      (by decide),
   (get_result_file_validation ⟨true, [str "w"]⟩ [] ⟨false, [str "out.csv"]⟩ 10).2
      (by decide)⟩

/-! ## Claim C8 (file slicing and base64 payload) -/

/-- Claim C8: for an existing in-directory file, the payload reports the
file's full size; when `max_bytes` is smaller than the size the result is
marked truncated and its base64 data decodes to exactly the first
`max_bytes` bytes of the file; when `max_bytes` is at least the size the
result is not truncated and carries the entire content. -/
theorem get_result_file_slicing (wd : PurePath) (files : List (PurePath × List Nat))
    (rel : PurePath) (mb : Nat) (bytes : List Nat)
    (hin : within wd (resolve (pathJoin wd rel)))
    (hfind : findFile files (resolve (pathJoin wd rel)) = some bytes)
    (hbb : ∀ b ∈ bytes, b < 256) :
    get_result_file_base64 wd files rel mb
      = .ok { size_bytes := bytes.length
              truncated := bytes.length > mb
              data := bytes.take mb
              data_base64 := b64encode (bytes.take mb) }
    ∧ pyB64Decode (b64encode (bytes.take mb)) = some (bytes.take mb)
    ∧ (mb < bytes.length → (bytes.length > mb : Bool) = true)
    ∧ (bytes.length ≤ mb →
        (bytes.length > mb : Bool) = false ∧ bytes.take mb = bytes) := by
  have hcode : get_result_file_base64 wd files rel mb
      = if ¬ wd ∈ parents (resolve (pathJoin wd rel))
            ∧ wd ≠ resolve (pathJoin wd rel)
        then .error (str "validation_error")
        else
          match findFile files (resolve (pathJoin wd rel)) with
          | none => .error (str "not_found")
          | some bytes =>
            .ok { size_bytes := bytes.length
                  truncated := bytes.length > mb
                  data := bytes.take mb
                  data_base64 := b64encode (bytes.take mb) } := rfl
  refine ⟨?_, ?_, ?_, ?_⟩
  · rw [hcode, if_neg, hfind]
    rw [← check_iff_within] at hin
    intro hcond
    rcases hin with hp | he
    · exact hcond.1 hp
    · exact hcond.2 he
  · exact pyB64Decode_b64encode _ (fun b hb => hbb b (List.take_subset mb bytes hb))
  · intro hlt
    simpa using hlt
  · intro hle
    constructor
    · simpa using hle
    · exact List.take_of_length_le hle

/-- Claim C8 witness: a four-byte file requested with `max_bytes = 3` is
truncated to its first three bytes, which the base64 payload decodes to. -/
theorem get_result_file_slicing_witness :
    get_result_file_base64 ⟨true, [str "w"]⟩
        [(⟨true, [str "w", str "f.dat"]⟩, [10, 20, 30, 40])]
        ⟨false, [str "f.dat"]⟩ 3
      = .ok { size_bytes := 4
              truncated := true
              data := [10, 20, 30]
              data_base64 := b64encode [10, 20, 30] }
    ∧ pyB64Decode (b64encode [10, 20, 30]) = some [10, 20, 30] := by
  have h := get_result_file_slicing ⟨true, [str "w"]⟩
    [(⟨true, [str "w", str "f.dat"]⟩, [10, 20, 30, 40])]
    ⟨false, [str "f.dat"]⟩ 3 [10, 20, 30, 40] (by decide) (by decide) (by decide)
  exact ⟨h.1, h.2.1⟩

/-! ## Claim C9 (history CSV row accounting) -/

/-- Claim C9: `read_history_csv` returns at most `max_rows` rows, its
`total_rows` field is `skip_rows` plus the number of returned rows, and
consequently when the file holds more than `skip_rows + max_rows` data
rows, `total_rows` is not the file's total row count. -/
theorem read_history_csv_counts (headers : List Str)
    (dataRows : List (List (Str × Str))) (columns : Option (List Str))
    (max_rows skip_rows : Nat) :
    (read_history_csv headers dataRows columns max_rows skip_rows).rows.length
        ≤ max_rows
    ∧ (read_history_csv headers dataRows columns max_rows skip_rows).total_rows
        = skip_rows
          + (read_history_csv headers dataRows columns max_rows skip_rows).rows.length
    ∧ (skip_rows + max_rows < dataRows.length →
        (read_history_csv headers dataRows columns max_rows skip_rows).total_rows
          ≠ dataRows.length) := by
  refine ⟨?_, rfl, ?_⟩
  · unfold read_history_csv
    simp only [List.length_map, List.length_take, List.length_drop]
    omega
  · intro hmore
    unfold read_history_csv
    simp only [List.length_map, List.length_take, List.length_drop]
    omega

/-- Claim C9 witness: five data rows with one skipped and at most two
kept yield two rows and `total_rows = 3`, which differs from the file's
five rows. -/
theorem read_history_csv_counts_witness :
    (read_history_csv [str "it"] [[], [], [], [], []] none 2 1).rows.length ≤ 2
    ∧ (read_history_csv [str "it"] [[], [], [], [], []] none 2 1).total_rows
        = 1 + (read_history_csv [str "it"] [[], [], [], [], []] none 2 1).rows.length
    ∧ (read_history_csv [str "it"] [[], [], [], [], []] none 2 1).total_rows ≠ 5 := by
  have h := read_history_csv_counts [str "it"] [[], [], [], [], []] none 2 1
  exact ⟨h.1, h.2.1, h.2.2 (by decide)⟩

/-! ## Claim C10 (decode failure precedes every mesh-update mutation) -/

/-- Claim C10: when the base64 decoding of the supplied mesh fails,
`update_mesh` raises before performing any write: the mesh file, the
record's `mesh_path` field and the session's config text are all exactly
as before the call. -/
theorem update_mesh_decode_error (st : SMState) (mb name : Str)
    (h : pyB64Decode mb = none) :
    update_mesh st mb name = (st, .decodeError) := by
  unfold update_mesh
  rw [h]

/-- Claim C10 witness: the one-character string `a` is not valid base64
(one leftover data character), so `update_mesh` fails and leaves the
state untouched. -/
theorem update_mesh_decode_error_witness :
    update_mesh ⟨str "MESH_FILENAME= mesh.su2\n", none, none⟩ (str "a")
        (str "mesh.su2")
      = (⟨str "MESH_FILENAME= mesh.su2\n", none, none⟩, .decodeError) :=
  update_mesh_decode_error ⟨str "MESH_FILENAME= mesh.su2\n", none, none⟩
    (str "a") (str "mesh.su2") (by decide)

/-! ## Claim C5 (timeout handling) -/

/-- Claim C5: when the child process exceeds the timeout, `run` returns a
result with success `false`, exit code `-1`, error type `"timeout"`, the
fixed "Process timed out" log marker independent of whatever raw output
the process produced before the deadline, and a null residual history. -/
theorem run_timeout_result (solver cfg part exc : Str) (n : Nat) (rt : Int)
    (res : Option (List HistRow)) :
    (SU2Runner.run solver cfg (.timedOut part exc) n rt res).success = false
    ∧ (SU2Runner.run solver cfg (.timedOut part exc) n rt res).exit_code = -1
    ∧ (SU2Runner.run solver cfg (.timedOut part exc) n rt res).log_tail
        = str "Process timed out"
    ∧ (SU2Runner.run solver cfg (.timedOut part exc) n rt res).error.map RunError.etype
        = some (str "timeout")
    ∧ (SU2Runner.run solver cfg (.timedOut part exc) n rt res).residual_history = none :=
  ⟨rfl, rfl, rfl, rfl, rfl⟩

/-! ## Claim C6 (missing binary handling) -/

/-- Claim C6: when the executable cannot be located or started, `run`
returns a result with error type `"missing_binary"`, success `false`,
exit code `-1` and an empty log tail. -/
theorem run_missing_binary_result (solver cfg exc : Str) (n : Nat) (rt : Int)
    (res : Option (List HistRow)) :
    (SU2Runner.run solver cfg (.notFound exc) n rt res).success = false
    ∧ (SU2Runner.run solver cfg (.notFound exc) n rt res).exit_code = -1
    ∧ (SU2Runner.run solver cfg (.notFound exc) n rt res).log_tail = str ""
    ∧ (SU2Runner.run solver cfg (.notFound exc) n rt res).error.map RunError.etype
        = some (str "missing_binary") :=
  ⟨rfl, rfl, rfl, rfl⟩

end SU2MCP
